import Mathlib

/-!
Verification of hikari's internal collection layer and entity factory
(`src/hikari/internal/collections.py`, `src/hikari/impl/entity_factory.py`)
against their natural-language specification, via a shallow embedding of the
Python code in Lean.  Python dicts are modelled as insertion-ordered
association lists, the `array`-backed snowflake set as a list of naturals,
and the callback-driven eviction of `LimitedCapacityCacheMap` as operations
that return the list of values handed to `on_expire`, in invocation order.
-/

namespace Hikari

/-- Python `dict` assignment `d[k] = v` on an insertion-ordered association
list: an existing key keeps its position and gets the new value bound to it; a
new key is appended at the end.  This is CPython's documented dict ordering,
which `LimitedCapacityCacheMap` relies on. -/
def dictSet {K V : Type} [DecidableEq K] : List (K × V) → K → V → List (K × V)
  | [], k, v => [(k, v)]
  | (k1, v1) :: rest, k, v =>
    if k1 = k then (k, v) :: rest else (k1, v1) :: dictSet rest k v

/-- Python `del d[k]`: `none` models the `KeyError` raised when the key is
absent, otherwise the key's entry is removed and every other entry keeps its
relative order. -/
def dictDel {K V : Type} [DecidableEq K] : List (K × V) → K → Option (List (K × V))
  | [], _ => none
  | (k1, v1) :: rest, k =>
    if k1 = k then some rest else (dictDel rest k).map (fun d => (k1, v1) :: d)

/-- The state of `hikari.internal.collections.LimitedCapacityCacheMap`: the
backing dict `_data` and the capacity `_limit`.  The `on_expire` callback is
not stored; operations instead return the entries it would be called on. -/
structure LCMap (K V : Type) where
  data : List (K × V)
  limit : Nat
deriving DecidableEq

/-- `LimitedCapacityCacheMap._garbage_collect`: `while len(self._data) >
self._limit:` pop the first-inserted entry and call `on_expire` on its value
after the removal.  Returns the surviving dict and the popped entries in the
order `on_expire` is invoked on their values (each exactly once, after its
entry's removal). -/
def lcmGarbageCollect {K V : Type} (limit : Nat) : List (K × V) → List (K × V) × List (K × V)
  | [] => ([], [])
  | e :: rest =>
    if rest.length + 1 > limit then
      let r := lcmGarbageCollect limit rest
      (r.1, e :: r.2)
    else (e :: rest, [])

/-- `LimitedCapacityCacheMap.__setitem__`: `self._data[key] = value` followed
by `self._garbage_collect()`.  Second component: the entries whose values are
passed to `on_expire`, in invocation order. -/
def lcmSet {K V : Type} [DecidableEq K] (m : LCMap K V) (k : K) (v : V) :
    LCMap K V × List (K × V) :=
  let r := lcmGarbageCollect m.limit (dictSet m.data k v)
  (⟨r.1, m.limit⟩, r.2)

/-- `LimitedCapacityCacheMap.clear`: `self._data.clear()` — the body never
calls `on_expire`, so the expired-entry list is empty by construction. -/
def lcmClear {K V : Type} (m : LCMap K V) : LCMap K V × List (K × V) :=
  (⟨[], m.limit⟩, [])

/-- `LimitedCapacityCacheMap.__delitem__`: `del self._data[key]` — the body
never calls `on_expire`, so the expired-entry list is empty by construction;
`none` models the `KeyError` on an absent key. -/
def lcmDel {K V : Type} [DecidableEq K] (m : LCMap K V) (k : K) :
    Option (LCMap K V × List (K × V)) :=
  (dictDel m.data k).map (fun d => (⟨d, m.limit⟩, []))

/-- Run a sequence of `__setitem__` calls, concatenating the expired-entry
lists in invocation order. -/
def lcmRunInserts {K V : Type} [DecidableEq K] :
    List (K × V) → LCMap K V → LCMap K V × List (K × V)
  | [], m => (m, [])
  | (k, v) :: ops, m =>
    let r := lcmSet m k v
    let r2 := lcmRunInserts ops r.1
    (r2.1, r.2 ++ r2.2)

/-- The distinct elements of a list in order of first occurrence. -/
def firstOccKeys {K : Type} [DecidableEq K] (l : List K) : List K :=
  l.foldl (fun acc k => if k ∈ acc then acc else acc ++ [k]) []

/-! ### Basic lemmas about the dict model -/

theorem dictSet_of_not_mem {K V : Type} [DecidableEq K] (d : List (K × V)) (k : K) (v : V)
    (h : k ∉ d.map Prod.fst) : dictSet d k v = d ++ [(k, v)] := by
  induction d with
  | nil => rfl
  | cons e rest ih =>
    simp only [List.map_cons, List.mem_cons] at h
    push_neg at h
    simp only [dictSet]
    rw [if_neg (by exact fun hh => h.1 hh.symm), ih h.2]
    rfl

theorem dictSet_keys_of_mem {K V : Type} [DecidableEq K] (d : List (K × V)) (k : K) (v : V)
    (h : k ∈ d.map Prod.fst) :
    (dictSet d k v).map Prod.fst = d.map Prod.fst := by
  induction d with
  | nil => simp at h
  | cons e rest ih =>
    simp only [List.map_cons, List.mem_cons] at h
    by_cases hk : e.1 = k
    · obtain ⟨k1, v1⟩ := e
      simp only at hk
      simp [dictSet, hk]
    · obtain ⟨k1, v1⟩ := e
      simp only at hk
      have hmem : k ∈ rest.map Prod.fst := by
        rcases h with h | h
        · exact absurd h.symm hk
        · exact h
      simp [dictSet, hk, ih hmem]

theorem dictSet_length_of_mem {K V : Type} [DecidableEq K] (d : List (K × V)) (k : K) (v : V)
    (h : k ∈ d.map Prod.fst) : (dictSet d k v).length = d.length := by
  have := dictSet_keys_of_mem d k v h
  have h1 : ((dictSet d k v).map Prod.fst).length = (d.map Prod.fst).length := by rw [this]
  simpa using h1

/-- Closed form of the garbage-collect sweep: it pops exactly the first
`length - limit` entries (in order) and keeps the rest. -/
theorem lcmGarbageCollect_eq {K V : Type} (limit : Nat) (d : List (K × V)) :
    lcmGarbageCollect limit d = (d.drop (d.length - limit), d.take (d.length - limit)) := by
  induction d with
  | nil => simp [lcmGarbageCollect]
  | cons e rest ih =>
    simp only [lcmGarbageCollect]
    by_cases h : rest.length + 1 > limit
    · rw [if_pos h, ih]
      have harith : (e :: rest).length - limit = (rest.length - limit) + 1 := by
        simp only [List.length_cons]
        omega
      rw [harith]
      simp
    · rw [if_neg h]
      have harith : (e :: rest).length - limit = 0 := by
        simp only [List.length_cons]
        omega
      rw [harith]
      simp

theorem mem_foldl_firstOcc {K : Type} [DecidableEq K] (l : List K) (acc : List K) (x : K) :
    x ∈ l.foldl (fun acc k => if k ∈ acc then acc else acc ++ [k]) acc ↔
      x ∈ acc ∨ x ∈ l := by
  induction l generalizing acc with
  | nil => simp
  | cons a ks ih =>
    simp only [List.foldl_cons, ih, List.mem_cons]
    by_cases ha : a ∈ acc
    · rw [if_pos ha]
      constructor
      · rintro (h | h)
        · exact Or.inl h
        · exact Or.inr (Or.inr h)
      · rintro (h | h | h)
        · exact Or.inl h
        · exact Or.inl (h ▸ ha)
        · exact Or.inr h
    · rw [if_neg ha]
      simp only [List.mem_append, List.mem_singleton]
      tauto

theorem mem_firstOccKeys {K : Type} [DecidableEq K] (l : List K) (x : K) :
    x ∈ firstOccKeys l ↔ x ∈ l := by
  rw [firstOccKeys, mem_foldl_firstOcc]
  simp

theorem firstOccKeys_append_single {K : Type} [DecidableEq K] (l : List K) (k : K) :
    firstOccKeys (l ++ [k]) =
      if k ∈ firstOccKeys l then firstOccKeys l else firstOccKeys l ++ [k] := by
  simp only [firstOccKeys, List.foldl_append, List.foldl_cons, List.foldl_nil]

theorem firstOccKeys_append_of_mem {K : Type} [DecidableEq K] (l : List K) (k : K)
    (h : k ∈ l) : firstOccKeys (l ++ [k]) = firstOccKeys l := by
  rw [firstOccKeys_append_single, if_pos ((mem_firstOccKeys l k).mpr h)]

theorem firstOccKeys_append_of_not_mem {K : Type} [DecidableEq K] (l : List K) (k : K)
    (h : k ∉ l) : firstOccKeys (l ++ [k]) = firstOccKeys l ++ [k] := by
  rw [firstOccKeys_append_single,
    if_neg (fun hc => h ((mem_firstOccKeys l k).mp hc))]

/-! ### The eviction behaviour of `LimitedCapacityCacheMap` -/

theorem lcmSet_keys_of_mem {K V : Type} [DecidableEq K] (m : LCMap K V) (k : K) (v : V)
    (hlen : m.data.length ≤ m.limit) (hmem : k ∈ m.data.map Prod.fst) :
    (lcmSet m k v).1.data.map Prod.fst = m.data.map Prod.fst ∧ (lcmSet m k v).2 = [] := by
  have hl := dictSet_length_of_mem m.data k v hmem
  have h0 : (dictSet m.data k v).length - m.limit = 0 := by omega
  constructor
  · show (lcmGarbageCollect m.limit (dictSet m.data k v)).1.map Prod.fst = _
    rw [lcmGarbageCollect_eq, h0]
    simp [dictSet_keys_of_mem m.data k v hmem]
  · show (lcmGarbageCollect m.limit (dictSet m.data k v)).2 = []
    rw [lcmGarbageCollect_eq, h0]
    simp

theorem lcmRunInserts_limit {K V : Type} [DecidableEq K] (ops : List (K × V)) (m : LCMap K V) :
    (lcmRunInserts ops m).1.limit = m.limit := by
  induction ops generalizing m with
  | nil => rfl
  | cons op rest ih =>
    obtain ⟨k, v⟩ := op
    simp only [lcmRunInserts]
    rw [ih]
    rfl

/-- Closed-form description of a run of insertions whose keys are pairwise
distinct: the dict ends up holding the last `limit` entries and the expired
list is exactly the earliest-inserted entries, in insertion order. -/
theorem lcmRunInserts_nodup {K V : Type} [DecidableEq K]
    (ops : List (K × V)) (m : LCMap K V)
    (hnodup : (m.data.map Prod.fst ++ ops.map Prod.fst).Nodup)
    (hlen : m.data.length ≤ m.limit) :
    (lcmRunInserts ops m).1.data =
      (m.data ++ ops).drop (m.data.length + ops.length - m.limit)
    ∧ (lcmRunInserts ops m).2 =
      (m.data ++ ops).take (m.data.length + ops.length - m.limit) := by
  induction ops generalizing m with
  | nil =>
    have h0 : m.data.length - m.limit = 0 := by omega
    simp [lcmRunInserts, h0]
  | cons op rest ih =>
    obtain ⟨k, v⟩ := op
    have hknotmem : k ∉ m.data.map Prod.fst := by
      intro hc
      have hdisj := (List.nodup_append.mp hnodup).2.2
      exact hdisj hc (by simp)
    have hset : dictSet m.data k v = m.data ++ [(k, v)] :=
      dictSet_of_not_mem m.data k v hknotmem
    set d : List (K × V) := m.data ++ [(k, v)] with hd
    have hdlen : d.length = m.data.length + 1 := by simp [hd]
    set j : Nat := d.length - m.limit with hj
    have hgc : lcmGarbageCollect m.limit d = (d.drop j, d.take j) :=
      lcmGarbageCollect_eq m.limit d
    have hjle : j ≤ d.length := by omega
    set m2 : LCMap K V := ⟨d.drop j, m.limit⟩ with hm2
    have hm2len : m2.data.length = d.length - j := by simp [hm2]
    have hm2le : m2.data.length ≤ m2.limit := by
      simp only [hm2len, hm2]
      omega
    have hkeysplit : m.data.map Prod.fst ++ (k :: rest.map Prod.fst) =
        d.map Prod.fst ++ rest.map Prod.fst := by
      simp [hd]
    have hm2keys : m2.data.map Prod.fst = (d.map Prod.fst).drop j := by
      simp [hm2, List.map_drop]
    have hnodup2 : (m2.data.map Prod.fst ++ rest.map Prod.fst).Nodup := by
      have hall : (d.map Prod.fst ++ rest.map Prod.fst).Nodup := by
        rw [← hkeysplit]
        simpa using hnodup
      have hsub : (m2.data.map Prod.fst ++ rest.map Prod.fst).Sublist
          (d.map Prod.fst ++ rest.map Prod.fst) := by
        rw [hm2keys]
        exact List.Sublist.append_right (List.drop_sublist j (d.map Prod.fst)) _
      exact hall.sublist hsub
    have hrec := ih m2 hnodup2 hm2le
    have happ : m2.data ++ rest = (d ++ rest).drop j := by
      rw [List.drop_append_of_le_length hjle]
    have htotal : m.data ++ (k, v) :: rest = d ++ rest := by
      simp [hd]
    have harith : j + (m2.data.length + rest.length - m.limit) =
        m.data.length + ((k, v) :: rest).length - m.limit := by
      simp only [hm2len, List.length_cons]
      omega
    have hm2lim : m2.limit = m.limit := rfl
    have harith2 : m.data.length + ((k, v) :: rest).length - m.limit =
        j + (m2.data.length + rest.length - m2.limit) := by
      simp only [hm2lim, hm2len, List.length_cons]
      omega
    constructor
    · show (lcmRunInserts rest (lcmSet m k v).1).1.data = _
      have hsetstep : (lcmSet m k v).1 = m2 := by
        simp only [lcmSet, hset, ← hd, hgc, hm2]
      rw [hsetstep, hrec.1, happ, List.drop_drop, htotal, harith2]
    · show (lcmSet m k v).2 ++ (lcmRunInserts rest (lcmSet m k v).1).2 = _
      have hsetstep : (lcmSet m k v).1 = m2 := by
        simp only [lcmSet, hset, ← hd, hgc, hm2]
      have hsetexp : (lcmSet m k v).2 = d.take j := by
        simp only [lcmSet, hset, ← hd, hgc]
      rw [hsetstep, hsetexp, hrec.2, happ, htotal, harith2, List.take_add]
      congr 1
      exact (List.take_append_of_le_length hjle).symm

/-- The invariant maintained by `__setitem__`: keys are distinct, the size
never exceeds the limit, and while the map has not yet filled up its keys are
exactly the distinct keys inserted so far, in first-insertion order. -/
def lcmInv {K V : Type} [DecidableEq K] (m : LCMap K V) (seen : List K) : Prop :=
  (m.data.map Prod.fst).Nodup ∧ m.data.length ≤ m.limit ∧
    (m.data.length < m.limit → m.data.map Prod.fst = firstOccKeys seen)

theorem lcmInv_step {K V : Type} [DecidableEq K] (m : LCMap K V) (seen : List K)
    (k : K) (v : V) (h : lcmInv m seen) (hseen : ∀ x ∈ m.data.map Prod.fst, x ∈ seen) :
    lcmInv (lcmSet m k v).1 (seen ++ [k]) ∧
      (∀ x ∈ (lcmSet m k v).1.data.map Prod.fst, x ∈ seen ++ [k]) := by
  obtain ⟨hnodup, hle, hfill⟩ := h
  by_cases hmem : k ∈ m.data.map Prod.fst
  · have hkeys := lcmSet_keys_of_mem m k v hle hmem
    have hlimit : (lcmSet m k v).1.limit = m.limit := rfl
    have hlen : (lcmSet m k v).1.data.length = m.data.length := by
      have := congrArg List.length hkeys.1
      simpa using this
    refine ⟨⟨by rw [hkeys.1]; exact hnodup, by rw [hlen, hlimit]; exact hle, ?_⟩, ?_⟩
    · intro hlt
      rw [hkeys.1]
      rw [hlen, hlimit] at hlt
      have hkseen : k ∈ seen := hseen k hmem
      rw [firstOccKeys_append_of_mem seen k hkseen]
      exact hfill hlt
    · intro x hx
      rw [hkeys.1] at hx
      exact List.mem_append_left _ (hseen x hx)
  · have hset : dictSet m.data k v = m.data ++ [(k, v)] :=
      dictSet_of_not_mem m.data k v hmem
    by_cases hfull : m.data.length < m.limit
    · have h0 : (dictSet m.data k v).length - m.limit = 0 := by
        rw [hset]
        simp
        omega
      have hstep : (lcmSet m k v).1.data = m.data ++ [(k, v)] := by
        show (lcmGarbageCollect m.limit (dictSet m.data k v)).1 = _
        rw [lcmGarbageCollect_eq, h0, List.drop_zero, hset]
      have hkeys : (lcmSet m k v).1.data.map Prod.fst = m.data.map Prod.fst ++ [k] := by
        rw [hstep]
        simp
      have hknotseen : k ∉ seen := by
        intro hc
        rw [hfill hfull] at hmem
        exact hmem ((mem_firstOccKeys seen k).mpr hc)
      refine ⟨⟨?_, ?_, ?_⟩, ?_⟩
      · rw [hkeys]
        refine List.Nodup.append hnodup (List.nodup_singleton k) ?_
        intro x hx hx2
        simp only [List.mem_singleton] at hx2
        exact hmem (hx2 ▸ hx)
      · show (lcmSet m k v).1.data.length ≤ m.limit
        rw [hstep]
        simp
        omega
      · intro hlt
        rw [hkeys, firstOccKeys_append_of_not_mem seen k hknotseen, hfill hfull]
      · intro x hx
        rw [hkeys] at hx
        rcases List.mem_append.mp hx with hx | hx
        · exact List.mem_append_left _ (hseen x hx)
        · exact List.mem_append_right _ hx
    · have heq : m.data.length = m.limit := by omega
      have h1 : (dictSet m.data k v).length - m.limit = 1 := by
        rw [hset]
        simp
        omega
      have hstep : (lcmSet m k v).1.data = (m.data ++ [(k, v)]).drop 1 := by
        show (lcmGarbageCollect m.limit (dictSet m.data k v)).1 = _
        rw [lcmGarbageCollect_eq, h1, hset]
      have hkeysnodup : (m.data.map Prod.fst ++ [k]).Nodup := by
        refine List.Nodup.append hnodup (List.nodup_singleton k) ?_
        intro x hx hx2
        simp only [List.mem_singleton] at hx2
        exact hmem (hx2 ▸ hx)
      refine ⟨⟨?_, ?_, ?_⟩, ?_⟩
      · have : (lcmSet m k v).1.data.map Prod.fst =
            (m.data.map Prod.fst ++ [k]).drop 1 := by
          rw [hstep, List.map_drop]
          simp
        rw [this]
        exact hkeysnodup.sublist (List.drop_sublist 1 _)
      · show (lcmSet m k v).1.data.length ≤ m.limit
        rw [hstep]
        simp
        omega
      · intro hlt
        exfalso
        have : (lcmSet m k v).1.data.length = m.limit := by
          rw [hstep]
          simp
          omega
        rw [this] at hlt
        exact absurd hlt (lt_irrefl _)
      · intro x hx
        have hx2 : x ∈ (m.data.map Prod.fst ++ [k]) := by
          have : (lcmSet m k v).1.data.map Prod.fst =
              (m.data.map Prod.fst ++ [k]).drop 1 := by
            rw [hstep, List.map_drop]
            simp
          rw [this] at hx
          exact List.mem_of_mem_drop hx
        rcases List.mem_append.mp hx2 with hx2 | hx2
        · exact List.mem_append_left _ (hseen x hx2)
        · exact List.mem_append_right _ hx2

theorem lcmInv_run {K V : Type} [DecidableEq K] (ops : List (K × V)) (m : LCMap K V)
    (seen : List K) (h : lcmInv m seen)
    (hseen : ∀ x ∈ m.data.map Prod.fst, x ∈ seen) :
    lcmInv (lcmRunInserts ops m).1 (seen ++ ops.map Prod.fst) := by
  induction ops generalizing m seen with
  | nil => simpa using h
  | cons op rest ih =>
    obtain ⟨k, v⟩ := op
    have hstep := lcmInv_step m seen k v h hseen
    have := ih (lcmSet m k v).1 (seen ++ [k]) hstep.1 hstep.2
    simpa [lcmRunInserts, List.append_assoc] using this

/-! ### `SnowflakeSet` -/

/-- `hikari.utilities.snowflake.Snowflake`: an `int` subclass used as the
identifier ("snowflake") type; a transparent wrapper over the integer. -/
structure Snowflake where
  val : Int
deriving DecidableEq

/-- `bisect.bisect_left(ids, v)` on the backing array: the left insertion
point, i.e. the index of the first element that is not `< v`.  The stdlib
routine is a binary search; on sorted arrays — the only state `SnowflakeSet`
ever builds — it computes exactly this linear characterisation. -/
def bisectLeft : List Nat → Nat → Nat
  | [], _ => 0
  | x :: xs, v => if x < v then bisectLeft xs v + 1 else 0

/-- `SnowflakeSet.add`: append when the insertion point is at the end,
otherwise insert at the insertion point unless the value is already there. -/
def snowAdd (ids : List Nat) (v : Nat) : List Nat :=
  if bisectLeft ids v = ids.length then ids ++ [v]
  else if ids.getD (bisectLeft ids v) 0 ≠ v then
    ids.take (bisectLeft ids v) ++ v :: ids.drop (bisectLeft ids v)
  else ids

/-- `SnowflakeSet.add_all`: early return on an empty (falsy) iterable, else
the re-implemented per-value search-and-insert loop of `add`. -/
def snowAddAll (ids : List Nat) (sfs : List Nat) : List Nat :=
  if sfs.isEmpty then ids else sfs.foldl snowAdd ids

/-- `SnowflakeSet.__iter__`: `map(snowflakes.Snowflake, self._ids)`. -/
def snowIter (ids : List Nat) : List Snowflake :=
  ids.map (fun n => Snowflake.mk (Int.ofNat n))

/-- One call in an arbitrary mixture of `add` and `add_all` calls. -/
inductive SfOp where
  | addOne (v : Nat)
  | addMany (vs : List Nat)

/-- All values an operation inserts. -/
def SfOp.inserted : SfOp → List Nat
  | .addOne v => [v]
  | .addMany vs => vs

/-- Run a sequence of `add`/`add_all` calls against the backing array. -/
def runSfOps : List SfOp → List Nat → List Nat
  | [], ids => ids
  | .addOne v :: ops, ids => runSfOps ops (snowAdd ids v)
  | .addMany vs :: ops, ids => runSfOps ops (snowAddAll ids vs)

theorem bisectLeft_le (ids : List Nat) (v : Nat) : bisectLeft ids v ≤ ids.length := by
  induction ids with
  | nil => simp [bisectLeft]
  | cons x xs ih =>
    simp only [bisectLeft, List.length_cons]
    by_cases h : x < v
    · rw [if_pos h]
      omega
    · rw [if_neg h]
      omega

theorem snowAdd_nil (v : Nat) : snowAdd [] v = [v] := rfl

/-- The recursive unfolding of `add`: it behaves as ordered insertion that
skips an already-present value. -/
theorem snowAdd_cons (x : Nat) (xs : List Nat) (v : Nat) :
    snowAdd (x :: xs) v =
      if x < v then x :: snowAdd xs v else if x = v then x :: xs else v :: x :: xs := by
  by_cases hx : x < v
  · rw [if_pos hx]
    have hb : bisectLeft (x :: xs) v = bisectLeft xs v + 1 := by
      simp [bisectLeft, hx]
    by_cases hend : bisectLeft xs v = xs.length
    · have hend2 : bisectLeft (x :: xs) v = (x :: xs).length := by
        rw [hb, hend, List.length_cons]
      rw [snowAdd, if_pos hend2, snowAdd, if_pos hend]
      rfl
    · have hend2 : ¬ bisectLeft (x :: xs) v = (x :: xs).length := by
        rw [hb, List.length_cons]
        omega
      have hget : (x :: xs).getD (bisectLeft (x :: xs) v) 0 = xs.getD (bisectLeft xs v) 0 := by
        rw [hb]
        rfl
      by_cases hv : xs.getD (bisectLeft xs v) 0 = v
      · rw [snowAdd, if_neg hend2, hget, if_neg (by simpa using hv), snowAdd,
          if_neg hend, if_neg (by simpa using hv)]
      · rw [snowAdd, if_neg hend2, hget, if_pos (by simpa using hv), snowAdd,
          if_neg hend, if_pos (by simpa using hv), hb]
        simp [List.take_succ_cons, List.drop_succ_cons]
  · rw [if_neg hx]
    have hb : bisectLeft (x :: xs) v = 0 := by
      simp [bisectLeft, hx]
    have hend : ¬ bisectLeft (x :: xs) v = (x :: xs).length := by
      rw [hb, List.length_cons]
      omega
    have hget : (x :: xs).getD (bisectLeft (x :: xs) v) 0 = x := by
      rw [hb]
      rfl
    by_cases he : x = v
    · rw [if_pos he, snowAdd, if_neg hend, hget, if_neg (by simpa using he)]
    · rw [if_neg he, snowAdd, if_neg hend, hget, if_pos (by simpa using he), hb]
      simp

theorem mem_snowAdd (l : List Nat) (v y : Nat) :
    y ∈ snowAdd l v ↔ y = v ∨ y ∈ l := by
  induction l with
  | nil => simp [snowAdd_nil]
  | cons x xs ih =>
    rw [snowAdd_cons]
    by_cases hx : x < v
    · rw [if_pos hx]
      simp only [List.mem_cons, ih]
      tauto
    · rw [if_neg hx]
      by_cases he : x = v
      · subst he
        rw [if_pos rfl]
        simp only [List.mem_cons]
        tauto
      · rw [if_neg he]
        simp

theorem sorted_snowAdd (l : List Nat) (v : Nat) (h : l.Sorted (· < ·)) :
    (snowAdd l v).Sorted (· < ·) := by
  induction l with
  | nil =>
    rw [snowAdd_nil]
    exact List.sorted_singleton v
  | cons x xs ih =>
    rw [List.sorted_cons] at h
    rw [snowAdd_cons]
    by_cases hx : x < v
    · rw [if_pos hx, List.sorted_cons]
      refine ⟨?_, ih h.2⟩
      intro b hb
      rcases (mem_snowAdd xs v b).mp hb with rfl | hb
      · exact hx
      · exact h.1 b hb
    · by_cases he : x = v
      · rw [if_neg hx, if_pos he, List.sorted_cons]
        exact h
      · rw [if_neg hx, if_neg he, List.sorted_cons]
        have hvx : v < x := by omega
        refine ⟨?_, List.sorted_cons.mpr h⟩
        intro b hb
        rcases List.mem_cons.mp hb with rfl | hb
        · exact hvx
        · exact lt_trans hvx (h.1 b hb)

theorem mem_foldl_snowAdd (vs : List Nat) (l : List Nat) (y : Nat) :
    y ∈ vs.foldl snowAdd l ↔ y ∈ l ∨ y ∈ vs := by
  induction vs generalizing l with
  | nil => simp
  | cons a vs ih =>
    simp only [List.foldl_cons, ih, mem_snowAdd, List.mem_cons]
    tauto

theorem sorted_foldl_snowAdd (vs : List Nat) (l : List Nat) (h : l.Sorted (· < ·)) :
    (vs.foldl snowAdd l).Sorted (· < ·) := by
  induction vs generalizing l with
  | nil => exact h
  | cons a vs ih => exact ih _ (sorted_snowAdd l a h)

theorem mem_snowAddAll (l vs : List Nat) (y : Nat) :
    y ∈ snowAddAll l vs ↔ y ∈ l ∨ y ∈ vs := by
  rw [snowAddAll]
  by_cases h : vs.isEmpty
  · rw [if_pos h]
    rw [List.isEmpty_iff] at h
    subst h
    simp
  · rw [if_neg h]
    exact mem_foldl_snowAdd vs l y

theorem sorted_snowAddAll (l vs : List Nat) (h : l.Sorted (· < ·)) :
    (snowAddAll l vs).Sorted (· < ·) := by
  rw [snowAddAll]
  by_cases hv : vs.isEmpty
  · rw [if_pos hv]
    exact h
  · rw [if_neg hv]
    exact sorted_foldl_snowAdd vs l h

theorem runSfOps_sorted (ops : List SfOp) (l : List Nat) (h : l.Sorted (· < ·)) :
    (runSfOps ops l).Sorted (· < ·) := by
  induction ops generalizing l with
  | nil => exact h
  | cons op rest ih =>
    cases op with
    | addOne v => exact ih _ (sorted_snowAdd l v h)
    | addMany vs => exact ih _ (sorted_snowAddAll l vs h)

theorem mem_runSfOps (ops : List SfOp) (l : List Nat) (y : Nat) :
    y ∈ runSfOps ops l ↔ y ∈ l ∨ y ∈ (ops.map SfOp.inserted).flatten := by
  induction ops generalizing l with
  | nil => simp [runSfOps]
  | cons op rest ih =>
    cases op with
    | addOne v =>
      simp only [runSfOps, ih, mem_snowAdd, SfOp.inserted, List.map_cons,
        List.flatten_cons, List.mem_append, List.mem_singleton]
      tauto
    | addMany vs =>
      simp only [runSfOps, ih, mem_snowAddAll, SfOp.inserted, List.map_cons,
        List.flatten_cons, List.mem_append]
      tauto

/-! ### Deletion lemmas -/

theorem dictDel_spec {K V : Type} [DecidableEq K] (d : List (K × V)) (k : K)
    (hmem : k ∈ d.map Prod.fst) :
    ∃ d2, dictDel d k = some d2 ∧
      ((d.map Prod.fst).Nodup → k ∉ d2.map Prod.fst) ∧
      (∀ x, x ≠ k → (x ∈ d2.map Prod.fst ↔ x ∈ d.map Prod.fst)) := by
  induction d with
  | nil => simp at hmem
  | cons e rest ih =>
    obtain ⟨k1, v1⟩ := e
    by_cases hk : k1 = k
    · refine ⟨rest, ?_, ?_, ?_⟩
      · simp [dictDel, hk]
      · intro hnodup
        subst hk
        simp only [List.map_cons, List.nodup_cons] at hnodup
        exact hnodup.1
      · intro x hx
        simp only [List.map_cons, List.mem_cons]
        constructor
        · exact Or.inr
        · rintro (h | h)
          · exact absurd (h.trans hk) hx
          · exact h
    · have hmem2 : k ∈ rest.map Prod.fst := by
        simp only [List.map_cons, List.mem_cons] at hmem
        rcases hmem with h | h
        · exact absurd h.symm hk
        · exact h
      obtain ⟨d2, hdel, hnot, hiff⟩ := ih hmem2
      refine ⟨(k1, v1) :: d2, ?_, ?_, ?_⟩
      · simp [dictDel, hk, hdel]
      · intro hnodup
        simp only [List.map_cons, List.nodup_cons] at hnodup
        simp only [List.map_cons, List.mem_cons]
        rintro (h | h)
        · exact hk h.symm
        · exact hnot hnodup.2 h
      · intro x hx
        simp only [List.map_cons, List.mem_cons, hiff x hx]

theorem dictDel_eq_none {K V : Type} [DecidableEq K] (d : List (K × V)) (k : K)
    (h : k ∉ d.map Prod.fst) : dictDel d k = none := by
  induction d with
  | nil => rfl
  | cons e rest ih =>
    obtain ⟨k1, v1⟩ := e
    simp only [List.map_cons, List.mem_cons] at h
    push_neg at h
    simp only [dictDel]
    rw [if_neg (fun hh => h.1 hh.symm), ih h.2]
    rfl

/-! ### Claim theorems for the collection layer -/

/-- C2: for every sequence of insertions into a `LimitedCapacityCacheMap`
with limit `L` that brings the number of distinct present keys above `L`, the
final size equals `L`; for insertion sequences with pairwise-distinct keys
the surviving dict is exactly the last `L` entries and the values handed to
`on_expire` (each exactly once, after its entry's removal — by construction
of `lcmGarbageCollect`) are exactly the earliest-inserted entries, in removal
order; and re-inserting a key that is still present neither changes its
position in the eviction order nor expires anything (no promotion-on-update). -/
theorem limited_capacity_cache_map_eviction {K V : Type} [DecidableEq K]
    (L : Nat) (ops : List (K × V)) (m : LCMap K V) (k : K) (v : V) :
    ((ops.map Prod.fst).Nodup →
       (lcmRunInserts ops (LCMap.mk [] L)).1.data = ops.drop (ops.length - L) ∧
       (lcmRunInserts ops (LCMap.mk [] L)).2 = ops.take (ops.length - L) ∧
       (L < ops.length → (lcmRunInserts ops (LCMap.mk [] L)).1.data.length = L))
    ∧ (L < (firstOccKeys (ops.map Prod.fst)).length →
       (lcmRunInserts ops (LCMap.mk [] L)).1.data.length = L)
    ∧ (m.data.length ≤ m.limit → k ∈ m.data.map Prod.fst →
       (lcmSet m k v).1.data.map Prod.fst = m.data.map Prod.fst ∧ (lcmSet m k v).2 = []) := by
  refine ⟨?_, ?_, fun h1 h2 => lcmSet_keys_of_mem m k v h1 h2⟩
  · intro hnodup
    have hrun := lcmRunInserts_nodup ops (LCMap.mk [] L)
      (by simpa using hnodup) (by simp)
    simp only [List.nil_append, List.length_nil, Nat.zero_add] at hrun
    refine ⟨hrun.1, hrun.2, ?_⟩
    intro hlt
    rw [hrun.1, List.length_drop]
    omega
  · intro hgt
    have hbase : lcmInv (LCMap.mk ([] : List (K × V)) L) ([] : List K) := by
      refine ⟨List.nodup_nil, by simp, ?_⟩
      intro _
      simp [firstOccKeys]
    have hinv := lcmInv_run ops (LCMap.mk [] L) [] hbase (by simp)
    obtain ⟨hnodup, hle, hfill⟩ := hinv
    have hlim := lcmRunInserts_limit ops (LCMap.mk [] L)
    rw [hlim] at hle hfill
    by_cases hlt : (lcmRunInserts ops (LCMap.mk [] L)).1.data.length < L
    · exfalso
      have hkeys := hfill hlt
      simp only [List.nil_append] at hkeys
      have hlen : (lcmRunInserts ops (LCMap.mk [] L)).1.data.length =
          (firstOccKeys (ops.map Prod.fst)).length := by
        have := congrArg List.length hkeys
        simpa using this
      omega
    · have hle2 : (lcmRunInserts ops (LCMap.mk ([] : List (K × V)) L)).1.data.length ≤ L := hle
      omega

/-- C3: for every finite set of distinct values inserted into a
`SnowflakeSet` in any order, through any mixture of `add` and `add_all`
calls (repeats being no-ops), iteration yields exactly the inserted values in
strictly ascending order with no duplicates. -/
theorem snowflake_set_sorted_iteration (ops : List SfOp) :
    (runSfOps ops []).Sorted (· < ·)
    ∧ (runSfOps ops []).Nodup
    ∧ List.Pairwise (fun a b : Snowflake => a.val < b.val) (snowIter (runSfOps ops []))
    ∧ ∀ v : Nat, v ∈ runSfOps ops [] ↔ v ∈ (ops.map SfOp.inserted).flatten := by
  have hsorted := runSfOps_sorted ops [] (List.sorted_nil)
  refine ⟨hsorted, hsorted.nodup, ?_, ?_⟩
  · rw [snowIter]
    refine List.Pairwise.map _ ?_ hsorted
    intro a b hab
    simpa using hab
  · intro v
    have := mem_runSfOps ops [] v
    simpa using this

/-- C10: the `on_expire` callback is driven only by capacity eviction —
`clear()` empties the map without expiring anything, and `del m[k]` removes
exactly the entry for `k` (and raises `KeyError`, modelled as `none`, when
absent) without expiring anything. -/
theorem lcm_clear_delete_no_expire {K V : Type} [DecidableEq K] (m : LCMap K V) (k : K) :
    (lcmClear m = (LCMap.mk ([] : List (K × V)) m.limit, []))
    ∧ (∀ r, lcmDel m k = some r → r.2 = [])
    ∧ (k ∉ m.data.map Prod.fst → lcmDel m k = none)
    ∧ (k ∈ m.data.map Prod.fst → ∃ r, lcmDel m k = some r ∧ r.2 = [] ∧
        ((m.data.map Prod.fst).Nodup → k ∉ r.1.data.map Prod.fst) ∧
        ∀ x, x ≠ k → (x ∈ r.1.data.map Prod.fst ↔ x ∈ m.data.map Prod.fst)) := by
  refine ⟨rfl, ?_, ?_, ?_⟩
  · intro r hr
    rw [lcmDel] at hr
    rcases Option.map_eq_some'.mp hr with ⟨d, _, hd⟩
    rw [← hd]
  · intro hnot
    rw [lcmDel, dictDel_eq_none m.data k hnot]
    rfl
  · intro hmem
    obtain ⟨d2, hdel, hnot, hiff⟩ := dictDel_spec m.data k hmem
    exact ⟨(LCMap.mk d2 m.limit, []), by rw [lcmDel, hdel]; rfl, rfl, hnot, hiff⟩

/-- Sanity: a concrete eviction run — limit 2, three distinct keys — keeps
the two youngest entries and expires the oldest. -/
theorem lcm_sanity :
    lcmRunInserts [(1, 10), (2, 20), (3, 30)] (LCMap.mk ([] : List (Nat × Nat)) 2)
      = (LCMap.mk [(2, 20), (3, 30)] 2, [(1, 10)]) := by
  decide

/-- Sanity: a concrete snowflake-set run — out-of-order and repeated
insertions produce the ascending deduplicated array. -/
theorem snowflake_set_sanity :
    runSfOps [SfOp.addOne 5, SfOp.addMany [3, 7, 5], SfOp.addOne 3] [] = [3, 5, 7] := by
  decide

/-! ## The entity factory: payloads and primitive conversions

`hikari.impl.entity_factory.EntityFactoryComponentImpl` consumes raw wire
payloads: mappings from string keys to JSON-compatible values.  Python's
`None` is the decoding of JSON `null`, so `payload.get(k)` yields `None` both
for an absent key and for a key bound to `null`, while `k in payload` sees
the difference; `payload[k]` raises `KeyError` when the key is absent.  The
`app` back-reference the factory attaches to models is opaque to it (never
inspected or branched on) and is left out of the embedded model structures. -/

inductive JSON where
  | null
  | bool (b : Bool)
  | num (n : Int)
  | str (s : String)
  | arr (elems : List JSON)
  | obj (entries : List (String × JSON))

/-- A payload object: ordered key/value pairs as decoded from the wire. -/
abbrev JObj := List (String × JSON)

/-- The typed failures of the deserialisation/serialisation layer. -/
inductive Err where
  | keyError (key : String)
  | typeError (msg : String)
  | valueError (msg : String)
  | indexError (msg : String)
  | dispatchKeyError (discriminator : JSON)

def jLookup : JObj → String → Option JSON
  | [], _ => none
  | (k1, v) :: rest, k => if k1 = k then some v else jLookup rest k

/-- `payload[k]`: required access, `KeyError` when the key is absent. -/
def req (p : JObj) (k : String) : Except Err JSON :=
  match jLookup p k with
  | some v => .ok v
  | none => .error (.keyError k)

/-- `payload.get(k)`: the stored value, with both "key absent" and "key bound
to `null`" surfacing as Python `None` (JSON `null` here). -/
def getOpt (p : JObj) (k : String) : JSON :=
  (jLookup p k).getD .null

/-- `payload.get(k, default)`. -/
def getOr (p : JObj) (k : String) (d : JSON) : JSON :=
  (jLookup p k).getD d

/-- `k in payload`. -/
def hasKey (p : JObj) (k : String) : Bool :=
  (jLookup p k).isSome

/-- Python truthiness of a decoded JSON value. -/
def JSON.truthy : JSON → Bool
  | .null => false
  | .bool b => b
  | .num n => decide (n ≠ 0)
  | .str s => !s.data.isEmpty
  | .arr l => !l.isEmpty
  | .obj l => !l.isEmpty

def JSON.isNull : JSON → Bool
  | .null => true
  | _ => false

/-- Python `str()` of a decoded JSON value.  Container reprs are abstracted
as fixed bracket strings: all the code under verification needs from them is
that `str()` of a container is never empty nor whitespace-only, which holds
for CPython's reprs. -/
def pyStr : JSON → String
  | .null => "None"
  | .bool true => "True"
  | .bool false => "False"
  | .num n => toString n
  | .str s => s
  | .arr _ => "[...]"
  | .obj _ => "\x7b...\x7d"

/-- Decimal digit-string value, for `int()` applied to the decimal strings
the wire carries (snowflakes are sent as decimal strings). -/
def digitsVal (l : List Char) : Option Nat :=
  if l.isEmpty then none
  else if l.all Char.isDigit then
    some (l.foldl (fun acc c => acc * 10 + (c.toNat - 48)) 0)
  else none

/-- Python `int(x)`: accepts numbers, booleans and decimal strings; anything
else is a `TypeError`/`ValueError`. -/
def pyInt : JSON → Except Err Int
  | .num n => .ok n
  | .bool b => .ok (if b then 1 else 0)
  | .str s =>
    match s.data with
    | '-' :: rest =>
      match digitsVal rest with
      | some n => .ok (-(n : Int))
      | none => .error (.valueError "invalid literal for int()")
    | l =>
      match digitsVal l with
      | some n => .ok ((n : Int))
      | none => .error (.valueError "invalid literal for int()")
  | _ => .error (.typeError "int() argument must be a string or a number")

/-- A raw number, where the Python code compares or arithmetises the payload
value without an `int()` conversion first (a non-number raises `TypeError`
there). -/
def asNum : JSON → Except Err Int
  | .num n => .ok n
  | .bool b => .ok (if b then 1 else 0)
  | _ => .error (.typeError "unsupported operand type")

/-- `snowflake.Snowflake(x)`: an `int` subclass, so the constructor is
`int()`. -/
def asSnowflake (j : JSON) : Except Err Snowflake :=
  (pyInt j).map Snowflake.mk

def asObj : JSON → Except Err JObj
  | .obj o => .ok o
  | _ => .error (.typeError "expected a JSON object")

def asArr : JSON → Except Err (List JSON)
  | .arr l => .ok l
  | _ => .error (.typeError "expected a JSON array")

/-- Modelled from the spec:
`hikari.utilities.date.iso8601_datetime_string_to_datetime` is not among the
sources under verification.  Per the spec, ISO-8601 timestamp strings convert
to absolute time points; the time point is modelled by its ISO-8601
representation, so the conversion is injective and `isoformat` is its left
inverse (exact on the canonical representations the round-trip property
exercises). -/
structure Datetime where
  iso : String
deriving DecidableEq

def iso8601Parse : JSON → Except Err Datetime
  | .str s => .ok ⟨s⟩
  | _ => .error (.typeError "expected an ISO-8601 timestamp string")

def Datetime.isoformat (d : Datetime) : String := d.iso

/-- Modelled from the spec: `hikari.utilities.date.unix_epoch_to_datetime`,
the epoch-relative millisecond encoding used by presence activity timestamps
— a routine distinct from the ISO-8601 one, kept distinct here. -/
def unixEpochToDatetime (ms : Int) : Datetime :=
  ⟨"unix-epoch-ms:" ++ toString ms⟩

/-- `datetime.timedelta`, normalised to seconds. -/
structure Timedelta where
  seconds : Int
deriving DecidableEq

def timedeltaSeconds (s : Int) : Timedelta := ⟨s⟩

def timedeltaDays (d : Int) : Timedelta := ⟨d * 86400⟩

/-- `hikari.utilities.undefined.UNDEFINED`: the omitted-field marker, kept
distinct from Python `None`. -/
inductive UndefinedOr (α : Type) where
  | undefined
  | defined (val : α)
deriving DecidableEq

/-! Inversion lemmas for the `Except`-monad plumbing of the deserialisers. -/

@[simp] theorem except_bind_ok {α β : Type} (m : Except Err α) (k : α → Except Err β) (r : β) :
    (m >>= k) = .ok r ↔ ∃ a, m = .ok a ∧ k a = .ok r := by
  cases m <;> simp [Bind.bind, Except.bind]

@[simp] theorem except_pure_eq_ok {α : Type} (a : α) :
    (pure a : Except Err α) = Except.ok a := rfl

@[simp] theorem except_error_bind {α β : Type} (e : Err) (k : α → Except Err β) :
    (Except.error e >>= k) = Except.error e := rfl

@[simp] theorem except_ok_bind {α β : Type} (a : α) (k : α → Except Err β) :
    (Except.ok a >>= k) = k a := rfl

@[simp] theorem except_map_err {α β : Type} (f : α → β) (e : Err) :
    (f <$> (Except.error e : Except Err α)) = Except.error e := rfl

@[simp] theorem except_map_ok {α β : Type} (f : α → β) (m : Except Err α) (r : β) :
    (f <$> m) = .ok r ↔ ∃ a, m = .ok a ∧ f a = r := by
  cases m <;> simp [Functor.map, Except.map]

/-! ## Embeds (`deserialize_embed` / `serialize_embed`) -/

/-- Modelled from the spec: `hikari.utilities.files.ensure_resource` is not
among the sources under verification.  Per the spec it wraps a payload URL
into a (web) resource object; the wrapper keeps the raw URL value, which is
what `serialize_embed` re-emits via the resource's `url`. -/
structure EmbedResource where
  url : JSON

structure EmbedImage where
  resource : EmbedResource
  proxyResource : EmbedResource
  height : JSON
  width : JSON

structure EmbedVideo where
  resource : EmbedResource
  height : JSON
  width : JSON

structure EmbedProvider where
  name : JSON
  url : JSON

structure EmbedResourceWithProxy where
  resource : EmbedResource
  proxyResource : EmbedResource

structure EmbedAuthor where
  name : JSON
  url : JSON
  icon : Option EmbedResourceWithProxy

structure EmbedFooter where
  text : JSON
  icon : Option EmbedResourceWithProxy

structure EmbedField where
  name : JSON
  value : JSON
  isInline : JSON

structure Embed where
  title : JSON
  description : JSON
  url : JSON
  color : Option Int
  timestamp : Option Datetime
  image : Option EmbedImage
  thumbnail : Option EmbedImage
  video : Option EmbedVideo
  provider : Option EmbedProvider
  author : Option EmbedAuthor
  footer : Option EmbedFooter
  fields : Option (List EmbedField)

def ensureResource (j : JSON) : EmbedResource := ⟨j⟩

def deserializeEmbedImagePart (j : JSON) : Except Err (Option EmbedImage) :=
  if j.truthy then do
    let o ← asObj j
    pure (some ⟨ensureResource (getOpt o "url"), ensureResource (getOpt o "proxy_url"),
      getOpt o "height", getOpt o "width"⟩)
  else pure none

def deserializeEmbedVideoPart (j : JSON) : Except Err (Option EmbedVideo) :=
  if j.truthy then do
    let o ← asObj j
    pure (some ⟨ensureResource (getOpt o "url"), getOpt o "height", getOpt o "width"⟩)
  else pure none

def deserializeEmbedProviderPart (j : JSON) : Except Err (Option EmbedProvider) :=
  if j.truthy then do
    let o ← asObj j
    pure (some ⟨getOpt o "name", getOpt o "url"⟩)
  else pure none

def deserializeEmbedAuthorPart (j : JSON) : Except Err (Option EmbedAuthor) :=
  if j.truthy then do
    let o ← asObj j
    let icon :=
      if hasKey o "icon_url" then
        some (EmbedResourceWithProxy.mk (ensureResource (getOpt o "icon_url"))
          (ensureResource (getOpt o "proxy_icon_url")))
      else none
    pure (some ⟨getOpt o "name", getOpt o "url", icon⟩)
  else pure none

def deserializeEmbedFooterPart (j : JSON) : Except Err (Option EmbedFooter) :=
  if j.truthy then do
    let o ← asObj j
    let icon :=
      if hasKey o "icon_url" then
        some (EmbedResourceWithProxy.mk (ensureResource (getOpt o "icon_url"))
          (ensureResource (getOpt o "proxy_icon_url")))
      else none
    pure (some ⟨getOpt o "text", icon⟩)
  else pure none

def deserializeEmbedField1 (j : JSON) : Except Err EmbedField := do
  let o ← asObj j
  let n ← req o "name"
  let v ← req o "value"
  pure ⟨n, v, getOr o "inline" (.bool false)⟩

def deserializeEmbedFieldList : List JSON → Except Err (List EmbedField)
  | [] => .ok []
  | j :: rest => do
    let f ← deserializeEmbedField1 j
    let tail ← deserializeEmbedFieldList rest
    pure (f :: tail)

def deserializeEmbedFieldsPart (j : JSON) : Except Err (Option (List EmbedField)) :=
  if j.truthy then do
    let arr ← asArr j
    let fs ← deserializeEmbedFieldList arr
    pure (some fs)
  else pure none

/-- `Color(payload["color"]) if "color" in payload else None`. -/
def deserializeEmbedColorPart (p : JObj) : Except Err (Option Int) :=
  if hasKey p "color" then (pyInt (getOpt p "color")).map some else pure none

/-- `iso8601(payload["timestamp"]) if "timestamp" in payload else None`. -/
def deserializeEmbedTimestampPart (p : JObj) : Except Err (Option Datetime) :=
  if hasKey p "timestamp" then (iso8601Parse (getOpt p "timestamp")).map some
  else pure none

/-- `EntityFactoryComponentImpl.deserialize_embed`, field for field and in
the source's evaluation order. -/
def deserializeEmbed (p : JObj) : Except Err Embed := do
  let color ← deserializeEmbedColorPart p
  let timestamp ← deserializeEmbedTimestampPart p
  let image ← deserializeEmbedImagePart (getOpt p "image")
  let thumbnail ← deserializeEmbedImagePart (getOpt p "thumbnail")
  let video ← deserializeEmbedVideoPart (getOpt p "video")
  let provider ← deserializeEmbedProviderPart (getOpt p "provider")
  let author ← deserializeEmbedAuthorPart (getOpt p "author")
  let footer ← deserializeEmbedFooterPart (getOpt p "footer")
  let fields ← deserializeEmbedFieldsPart (getOpt p "fields")
  pure ⟨getOpt p "title", getOpt p "description", getOpt p "url", color, timestamp,
    image, thumbnail, video, provider, author, footer, fields⟩

def embedFieldPrefix (i : Nat) : String :=
  "in embed.fields[" ++ toString i ++ "]"

/-- The `name` checks of the `serialize_embed` field loop, in source order:
`None`, empty string, whitespace-only (`str.strip()` of a whitespace-only
string is falsy). -/
def checkEmbedFieldName (i : Nat) (f : EmbedField) : Except Err String :=
  if f.name.isNull then
    .error (.typeError (embedFieldPrefix i ++ ".name - cannot have `None`"))
  else if (pyStr f.name).data.isEmpty then
    .error (.typeError (embedFieldPrefix i ++ ".name - cannot have empty string"))
  else if (pyStr f.name).data.all Char.isWhitespace then
    .error (.typeError (embedFieldPrefix i ++ ".name - cannot have only whitespace"))
  else .ok (pyStr f.name)

/-- The `value` checks of the `serialize_embed` field loop. -/
def checkEmbedFieldValue (i : Nat) (f : EmbedField) : Except Err String :=
  if f.value.isNull then
    .error (.typeError (embedFieldPrefix i ++ ".value - cannot have `None`"))
  else if (pyStr f.value).data.isEmpty then
    .error (.typeError (embedFieldPrefix i ++ ".value - cannot have empty string"))
  else if (pyStr f.value).data.all Char.isWhitespace then
    .error (.typeError (embedFieldPrefix i ++ ".value - cannot have only whitespace"))
  else .ok (pyStr f.value)

/-- The `enumerate(embed.fields)` loop of `serialize_embed`: the first
offending field raises; otherwise each field is re-emitted with its
stringified name and value and its verbatim `inline` flag. -/
def serializeEmbedFields (i : Nat) : List EmbedField → Except Err (List JSON)
  | [] => .ok []
  | f :: rest => do
    let n ← checkEmbedFieldName i f
    let v ← checkEmbedFieldValue i f
    let tail ← serializeEmbedFields (i + 1) rest
    pure (.obj [("name", .str n), ("value", .str v), ("inline", f.isInline)] :: tail)

/-- `if x is not None: payload[k] = x` — emit a key unless the value is
Python `None`. -/
def optEntry (k : String) (j : JSON) : JObj :=
  if j.isNull then [] else [(k, j)]

/-- `if x is not None: payload[k] = f(x)` for an optional model component. -/
def optEntryOf {A : Type} (k : String) (o : Option A) (g : A → JSON) : JObj :=
  match o with
  | some x => [(k, g x)]
  | none => []

def serializeEmbedFooterPart (f : EmbedFooter) : JObj :=
  optEntry "text" f.text ++
    optEntryOf "icon_url" f.icon (fun ic => ic.resource.url)

def serializeEmbedAuthorPart (a : EmbedAuthor) : JObj :=
  optEntry "name" a.name ++
    optEntry "url" a.url ++
    optEntryOf "icon_url" a.icon (fun ic => ic.resource.url)

/-- The unconditional part of `serialize_embed`'s payload, keys in source
order: title, description, url, timestamp, color, footer, image, thumbnail,
author. -/
def serializeEmbedBase (e : Embed) : JObj :=
  optEntry "title" e.title ++
  (optEntry "description" e.description ++
  (optEntry "url" e.url ++
  (optEntryOf "timestamp" e.timestamp (fun d => .str d.isoformat) ++
  (optEntryOf "color" e.color (fun c => .num c) ++
  (optEntryOf "footer" e.footer (fun f => .obj (serializeEmbedFooterPart f)) ++
  (optEntryOf "image" e.image (fun im => .obj [("url", im.resource.url)]) ++
  (optEntryOf "thumbnail" e.thumbnail (fun th => .obj [("url", th.resource.url)]) ++
  optEntryOf "author" e.author (fun a => .obj (serializeEmbedAuthorPart a)))))))))

/-- `EntityFactoryComponentImpl.serialize_embed`.  The upload list collects
non-web resources; every resource a deserialised embed carries was built by
`ensure_resource` from a payload URL and is a web resource, so no uploads are
produced here (they play no part in the verified properties). -/
def serializeEmbed (e : Embed) : Except Err (JObj × List EmbedResource) :=
  match e.fields with
  | some fs =>
    if fs.isEmpty then pure (serializeEmbedBase e, [])
    else do
      let fjs ← serializeEmbedFields 0 fs
      pure (serializeEmbedBase e ++ [("fields", .arr fjs)], [])
  | none => pure (serializeEmbedBase e, [])

/-! ### Validation of embed fields at serialisation time (C7) -/

/-- A name/value that `serialize_embed` rejects: `None`, empty, or
whitespace-only once stringified. -/
def badStr (j : JSON) : Bool :=
  j.isNull || (pyStr j).data.isEmpty || (pyStr j).data.all Char.isWhitespace

def isBadField (f : EmbedField) : Bool :=
  badStr f.name || badStr f.value

theorem checkEmbedFieldName_ok_iff (i : Nat) (f : EmbedField) :
    (∃ s, checkEmbedFieldName i f = .ok s) ↔ badStr f.name = false := by
  rw [checkEmbedFieldName, badStr]
  by_cases h1 : f.name.isNull <;> by_cases h2 : (pyStr f.name).data.isEmpty <;>
    by_cases h3 : (pyStr f.name).data.all Char.isWhitespace <;>
    simp [h1, h2, h3]

theorem checkEmbedFieldName_ok_val (i : Nat) (f : EmbedField) (s : String)
    (h : checkEmbedFieldName i f = .ok s) : s = pyStr f.name := by
  rw [checkEmbedFieldName] at h
  by_cases h1 : f.name.isNull <;> by_cases h2 : (pyStr f.name).data.isEmpty <;>
    by_cases h3 : (pyStr f.name).data.all Char.isWhitespace <;>
    simp [h1, h2, h3] at h <;> exact h.symm

theorem checkEmbedFieldName_error (i : Nat) (f : EmbedField) (h : badStr f.name = true) :
    ∃ suf, checkEmbedFieldName i f = .error (.typeError (embedFieldPrefix i ++ suf)) := by
  rw [badStr] at h
  rw [checkEmbedFieldName]
  by_cases h1 : f.name.isNull <;> by_cases h2 : (pyStr f.name).data.isEmpty <;>
    by_cases h3 : (pyStr f.name).data.all Char.isWhitespace <;>
    simp [h1, h2, h3] at h ⊢

theorem checkEmbedFieldValue_ok_iff (i : Nat) (f : EmbedField) :
    (∃ s, checkEmbedFieldValue i f = .ok s) ↔ badStr f.value = false := by
  rw [checkEmbedFieldValue, badStr]
  by_cases h1 : f.value.isNull <;> by_cases h2 : (pyStr f.value).data.isEmpty <;>
    by_cases h3 : (pyStr f.value).data.all Char.isWhitespace <;>
    simp [h1, h2, h3]

theorem checkEmbedFieldValue_ok_val (i : Nat) (f : EmbedField) (s : String)
    (h : checkEmbedFieldValue i f = .ok s) : s = pyStr f.value := by
  rw [checkEmbedFieldValue] at h
  by_cases h1 : f.value.isNull <;> by_cases h2 : (pyStr f.value).data.isEmpty <;>
    by_cases h3 : (pyStr f.value).data.all Char.isWhitespace <;>
    simp [h1, h2, h3] at h <;> exact h.symm

theorem checkEmbedFieldValue_error (i : Nat) (f : EmbedField) (h : badStr f.value = true) :
    ∃ suf, checkEmbedFieldValue i f = .error (.typeError (embedFieldPrefix i ++ suf)) := by
  rw [badStr] at h
  rw [checkEmbedFieldValue]
  by_cases h1 : f.value.isNull <;> by_cases h2 : (pyStr f.value).data.isEmpty <;>
    by_cases h3 : (pyStr f.value).data.all Char.isWhitespace <;>
    simp [h1, h2, h3] at h ⊢

theorem serializeEmbedFields_ok_of_good (fs : List EmbedField) (i : Nat)
    (h : ∀ f ∈ fs, isBadField f = false) :
    ∃ r, serializeEmbedFields i fs = .ok r := by
  induction fs generalizing i with
  | nil => exact ⟨[], rfl⟩
  | cons f rest ih =>
    have hf := h f (List.mem_cons_self f rest)
    rw [isBadField, Bool.or_eq_false_iff] at hf
    obtain ⟨n, hn⟩ := (checkEmbedFieldName_ok_iff i f).mpr hf.1
    obtain ⟨v, hv⟩ := (checkEmbedFieldValue_ok_iff i f).mpr hf.2
    obtain ⟨tail, htail⟩ := ih (i + 1) (fun g hg => h g (List.mem_cons_of_mem f hg))
    refine ⟨.obj [("name", .str n), ("value", .str v), ("inline", f.isInline)] :: tail, ?_⟩
    rw [serializeEmbedFields]
    simp [hn, hv, htail]

/-- The index of the first offending field, if any. -/
def firstBadIdx : List EmbedField → Option Nat
  | [] => none
  | f :: rest => if isBadField f then some 0 else (firstBadIdx rest).map (· + 1)

theorem serializeEmbedFields_error_spec (fs : List EmbedField) (i : Nat) (e : Err)
    (h : serializeEmbedFields i fs = .error e) :
    ∃ jdx suf, firstBadIdx fs = some jdx ∧
      e = .typeError (embedFieldPrefix (i + jdx) ++ suf) := by
  induction fs generalizing i e with
  | nil => simp [serializeEmbedFields] at h
  | cons f rest ih =>
    rw [serializeEmbedFields] at h
    by_cases hb1 : badStr f.name = true
    · obtain ⟨suf, hsuf⟩ := checkEmbedFieldName_error i f hb1
      rw [hsuf] at h
      simp only [except_error_bind, Except.error.injEq] at h
      refine ⟨0, suf, ?_, ?_⟩
      · rw [firstBadIdx, if_pos (by rw [isBadField, hb1]; rfl)]
      · rw [← h, Nat.add_zero]
    · have hb1f : badStr f.name = false := by
        cases hx : badStr f.name
        · rfl
        · exact absurd hx hb1
      obtain ⟨n, hn⟩ := (checkEmbedFieldName_ok_iff i f).mpr hb1f
      rw [hn] at h
      simp only [except_ok_bind] at h
      by_cases hb2 : badStr f.value = true
      · obtain ⟨suf, hsuf⟩ := checkEmbedFieldValue_error i f hb2
        rw [hsuf] at h
        simp only [except_error_bind, Except.error.injEq] at h
        refine ⟨0, suf, ?_, ?_⟩
        · rw [firstBadIdx, if_pos (by rw [isBadField, hb1f, hb2]; rfl)]
        · rw [← h, Nat.add_zero]
      · have hb2f : badStr f.value = false := by
          cases hx : badStr f.value
          · rfl
          · exact absurd hx hb2
        obtain ⟨v, hv⟩ := (checkEmbedFieldValue_ok_iff i f).mpr hb2f
        rw [hv] at h
        simp only [except_ok_bind] at h
        have htail : serializeEmbedFields (i + 1) rest = .error e := by
          rcases hr : serializeEmbedFields (i + 1) rest with er | r
          · rw [hr] at h
            simp only [except_error_bind, Except.error.injEq] at h
            rw [h]
          · rw [hr] at h
            simp at h
        obtain ⟨jdx, suf, hidx, he⟩ := ih (i + 1) e htail
        refine ⟨jdx + 1, suf, ?_, ?_⟩
        · rw [firstBadIdx, if_neg (by rw [isBadField, hb1f, hb2f]; simp), hidx]
          rfl
        · have harr : i + 1 + jdx = i + (jdx + 1) := by omega
          rw [he, harr]

theorem serializeEmbedFields_ok_good (fs : List EmbedField) (i : Nat) (r : List JSON)
    (h : serializeEmbedFields i fs = .ok r) : ∀ f ∈ fs, isBadField f = false := by
  induction fs generalizing i r with
  | nil => simp
  | cons f rest ih =>
    rw [serializeEmbedFields] at h
    simp only [except_bind_ok, except_pure_eq_ok, Except.ok.injEq] at h
    obtain ⟨n, hn, v, hv, tail, htail, _⟩ := h
    intro g hg
    rcases List.mem_cons.mp hg with rfl | hg
    · rw [isBadField, (checkEmbedFieldName_ok_iff i g).mp ⟨n, hn⟩,
        (checkEmbedFieldValue_ok_iff i g).mp ⟨v, hv⟩]
      rfl
    · exact ih (i + 1) tail htail g hg

/-- C7: `serialize_embed` raises a validation failure if and only if some
field in the embed's field list has a name or value that is null, empty, or
whitespace-only; the failure is a `TypeError` whose message cites the index
of the first offending field; `deserialize_embed` performs no such check — it
accepts arbitrary field strings verbatim, whitespace-only ones included. -/
theorem serialize_embed_field_validation (e : Embed) (nm vl : String) :
    ((∃ err, serializeEmbed e = .error err) ↔ ∃ f ∈ e.fields.getD [], isBadField f = true)
    ∧ (∀ err, serializeEmbed e = .error err →
        ∃ jdx suf, firstBadIdx (e.fields.getD []) = some jdx ∧
          err = .typeError (embedFieldPrefix jdx ++ suf))
    ∧ deserializeEmbed [("fields", .arr [.obj [("name", .str nm), ("value", .str vl)]])] =
        .ok ⟨.null, .null, .null, none, none, none, none, none, none, none, none,
          some [⟨.str nm, .str vl, .bool false⟩]⟩ := by
  refine ⟨?_, ?_, ?_⟩
  · cases hf : e.fields with
    | none => simp [serializeEmbed, hf]
    | some fs =>
      by_cases hem : fs.isEmpty
      · rw [List.isEmpty_iff] at hem
        subst hem
        simp [serializeEmbed, hf]
      · constructor
        · rintro ⟨err, herr⟩
          rw [serializeEmbed] at herr
          simp only [hf, hem, Bool.false_eq_true, if_false] at herr
          by_contra hno
          push_neg at hno
          have hall : ∀ f ∈ fs, isBadField f = false := by
            intro g hg
            have := hno g (by simpa [hf] using hg)
            cases hx : isBadField g
            · rfl
            · exact absurd hx this
          obtain ⟨r, hr⟩ := serializeEmbedFields_ok_of_good fs 0 hall
          rw [hr] at herr
          simp at herr
        · rintro ⟨f, hfmem, hbad⟩
          rw [serializeEmbed]
          simp only [hf, hem, Bool.false_eq_true, if_false]
          rcases hr : serializeEmbedFields 0 fs with er | r
          · exact ⟨er, rfl⟩
          · exfalso
            have := serializeEmbedFields_ok_good fs 0 r hr f (by simpa [hf] using hfmem)
            rw [this] at hbad
            exact Bool.false_ne_true hbad
  · intro err herr
    cases hf : e.fields with
    | none =>
      rw [serializeEmbed] at herr
      simp [hf] at herr
    | some fs =>
      by_cases hem : fs.isEmpty
      · rw [List.isEmpty_iff] at hem
        subst hem
        rw [serializeEmbed] at herr
        simp [hf] at herr
      · rw [serializeEmbed] at herr
        simp only [hf, hem, Bool.false_eq_true, if_false] at herr
        have htail : serializeEmbedFields 0 fs = .error err := by
          rcases hr : serializeEmbedFields 0 fs with er | r
          · rw [hr] at herr
            simp only [except_error_bind, Except.error.injEq] at herr
            rw [herr]
          · rw [hr] at herr
            simp at herr
        obtain ⟨jdx, suf, hidx, he⟩ := serializeEmbedFields_error_spec fs 0 err htail
        refine ⟨jdx, suf, ?_, ?_⟩
        · simpa [hf] using hidx
        · simpa using he
  · rfl

/-- Sanity: serialising an embed whose only field has a whitespace-only value
raises the `TypeError` citing index 0. -/
theorem serialize_embed_whitespace_sanity :
    serializeEmbed ⟨.null, .null, .null, none, none, none, none, none, none, none, none,
      some [⟨.str "a", .str " ", .bool false⟩]⟩ =
      .error (.typeError "in embed.fields[0].value - cannot have only whitespace") := by
  rfl

/-! ### The embed round trip (C6) -/

theorem jLookup_append_none (a b : JObj) (k : String) (h : jLookup a k = none) :
    jLookup (a ++ b) k = jLookup b k := by
  induction a with
  | nil => rfl
  | cons kv rest ih =>
    obtain ⟨k1, v1⟩ := kv
    rw [jLookup] at h
    by_cases hk : k1 = k
    · rw [if_pos hk] at h
      cases h
    · rw [if_neg hk] at h
      rw [List.cons_append, jLookup, if_neg hk]
      exact ih h

theorem jLookup_append_some (a b : JObj) (k : String) (v : JSON)
    (h : jLookup a k = some v) : jLookup (a ++ b) k = some v := by
  induction a with
  | nil => cases h
  | cons kv rest ih =>
    obtain ⟨k1, v1⟩ := kv
    rw [jLookup] at h
    by_cases hk : k1 = k
    · rw [if_pos hk] at h
      rw [List.cons_append, jLookup, if_pos hk]
      exact h
    · rw [if_neg hk] at h
      rw [List.cons_append, jLookup, if_neg hk]
      exact ih h

theorem jLookup_optEntry_ne (k1 k : String) (j : JSON) (h : ¬ k1 = k) :
    jLookup (optEntry k1 j) k = none := by
  rw [optEntry]
  split
  · rfl
  · rw [jLookup, if_neg h]
    rfl

theorem jLookup_optEntry_self (k1 : String) (j : JSON) (h : j.isNull = false) :
    jLookup (optEntry k1 j) k1 = some j := by
  rw [optEntry, h]
  simp [jLookup]

theorem jLookup_optEntryOf_ne {A : Type} (k1 k : String) (o : Option A) (g : A → JSON)
    (h : ¬ k1 = k) : jLookup (optEntryOf k1 o g) k = none := by
  cases o with
  | none => rfl
  | some x =>
    show jLookup [(k1, g x)] k = none
    rw [jLookup, if_neg h]
    rfl

theorem jLookup_optEntryOf_self {A : Type} (k1 : String) (o : Option A) (x : A)
    (g : A → JSON) (h : o = some x) : jLookup (optEntryOf k1 o g) k1 = some (g x) := by
  subst h
  show jLookup [(k1, g x)] k1 = some (g x)
  rw [jLookup, if_pos rfl]

theorem base_lookup_title (e : Embed) (h : e.title.isNull = false) :
    jLookup (serializeEmbedBase e) "title" = some e.title := by
  rw [serializeEmbedBase]
  exact jLookup_append_some _ _ _ _ (jLookup_optEntry_self _ _ h)

theorem base_lookup_description (e : Embed) (h : e.description.isNull = false) :
    jLookup (serializeEmbedBase e) "description" = some e.description := by
  rw [serializeEmbedBase]
  rw [jLookup_append_none _ _ _ (jLookup_optEntry_ne _ _ _ (by decide))]
  exact jLookup_append_some _ _ _ _ (jLookup_optEntry_self _ _ h)

theorem base_lookup_url (e : Embed) (h : e.url.isNull = false) :
    jLookup (serializeEmbedBase e) "url" = some e.url := by
  rw [serializeEmbedBase]
  rw [jLookup_append_none _ _ _ (jLookup_optEntry_ne _ _ _ (by decide)),
    jLookup_append_none _ _ _ (jLookup_optEntry_ne _ _ _ (by decide))]
  exact jLookup_append_some _ _ _ _ (jLookup_optEntry_self _ _ h)

theorem base_lookup_timestamp (e : Embed) (d : Datetime) (h : e.timestamp = some d) :
    jLookup (serializeEmbedBase e) "timestamp" = some (.str d.isoformat) := by
  rw [serializeEmbedBase]
  rw [jLookup_append_none _ _ _ (jLookup_optEntry_ne _ _ _ (by decide)),
    jLookup_append_none _ _ _ (jLookup_optEntry_ne _ _ _ (by decide)),
    jLookup_append_none _ _ _ (jLookup_optEntry_ne _ _ _ (by decide))]
  exact jLookup_append_some _ _ _ _ (jLookup_optEntryOf_self _ _ _ _ h)

theorem base_lookup_color (e : Embed) (c : Int) (h : e.color = some c) :
    jLookup (serializeEmbedBase e) "color" = some (.num c) := by
  rw [serializeEmbedBase]
  rw [jLookup_append_none _ _ _ (jLookup_optEntry_ne _ _ _ (by decide)),
    jLookup_append_none _ _ _ (jLookup_optEntry_ne _ _ _ (by decide)),
    jLookup_append_none _ _ _ (jLookup_optEntry_ne _ _ _ (by decide)),
    jLookup_append_none _ _ _ (jLookup_optEntryOf_ne _ _ _ _ (by decide))]
  exact jLookup_append_some _ _ _ _ (jLookup_optEntryOf_self _ _ _ _ h)

theorem base_lookup_fields_none (e : Embed) :
    jLookup (serializeEmbedBase e) "fields" = none := by
  rw [serializeEmbedBase]
  rw [jLookup_append_none _ _ _ (jLookup_optEntry_ne _ _ _ (by decide)),
    jLookup_append_none _ _ _ (jLookup_optEntry_ne _ _ _ (by decide)),
    jLookup_append_none _ _ _ (jLookup_optEntry_ne _ _ _ (by decide)),
    jLookup_append_none _ _ _ (jLookup_optEntryOf_ne _ _ _ _ (by decide)),
    jLookup_append_none _ _ _ (jLookup_optEntryOf_ne _ _ _ _ (by decide)),
    jLookup_append_none _ _ _ (jLookup_optEntryOf_ne _ _ _ _ (by decide)),
    jLookup_append_none _ _ _ (jLookup_optEntryOf_ne _ _ _ _ (by decide)),
    jLookup_append_none _ _ _ (jLookup_optEntryOf_ne _ _ _ _ (by decide))]
  exact jLookup_optEntryOf_ne _ _ _ _ (by decide)

/-- The shape of a successful `serialize_embed` payload: the base keys
followed by at most a `fields` entry. -/
theorem serializeEmbed_ok_shape (e : Embed) (q : JObj) (ups : List EmbedResource)
    (h : serializeEmbed e = .ok (q, ups)) :
    ∃ ftail, q = serializeEmbedBase e ++ ftail ∧
      (∀ kv ∈ ftail, kv.1 = "fields") ∧
      (∀ fs, e.fields = some fs → ¬ fs = [] →
        ∃ fjs, serializeEmbedFields 0 fs = .ok fjs ∧ ftail = [("fields", .arr fjs)]) := by
  rw [serializeEmbed] at h
  split at h
  next fs hf =>
    by_cases hem : fs.isEmpty = true
    · rw [if_pos hem] at h
      simp only [except_pure_eq_ok, Except.ok.injEq, Prod.mk.injEq] at h
      rw [List.isEmpty_iff] at hem
      refine ⟨[], by rw [← h.1, List.append_nil], by simp, ?_⟩
      intro fs2 hfs2 hne
      rw [hf] at hfs2
      injection hfs2 with hh
      subst hh
      exact absurd hem hne
    · rw [if_neg hem] at h
      rcases hr : serializeEmbedFields 0 fs with er | fjs
      · rw [hr] at h
        cases h
      · rw [hr] at h
        simp only [except_ok_bind, except_pure_eq_ok, Except.ok.injEq, Prod.mk.injEq] at h
        refine ⟨[("fields", .arr fjs)], h.1.symm, by simp, ?_⟩
        intro fs2 hfs2 _
        rw [hf] at hfs2
        injection hfs2 with hh
        subst hh
        exact ⟨fjs, hr, rfl⟩
  next hf =>
    simp only [except_pure_eq_ok, Except.ok.injEq, Prod.mk.injEq] at h
    refine ⟨[], by rw [← h.1, List.append_nil], by simp, ?_⟩
    intro fs hfs
    rw [hfs] at hf
    cases hf

theorem deserializeEmbedFieldList_length (js : List JSON) (fs : List EmbedField)
    (h : deserializeEmbedFieldList js = .ok fs) : fs.length = js.length := by
  induction js generalizing fs with
  | nil =>
    rw [deserializeEmbedFieldList] at h
    cases h
    rfl
  | cons j rest ih =>
    rw [deserializeEmbedFieldList] at h
    simp only [except_bind_ok, except_pure_eq_ok, Except.ok.injEq] at h
    obtain ⟨f, _, tail, htail, heq⟩ := h
    rw [← heq, List.length_cons, List.length_cons, ih tail htail]

@[simp] theorem except_map_ok_val {α β : Type} (f : α → β) (a : α) :
    (Except.ok a : Except Err α).map f = .ok (f a) := rfl

@[simp] theorem except_map_error_val {α β : Type} (f : α → β) (e : Err) :
    (Except.error e : Except Err α).map f = .error e := rfl

theorem req_eq_ok_iff (p : JObj) (k : String) (v : JSON) :
    req p k = .ok v ↔ jLookup p k = some v := by
  rw [req]
  rcases h : jLookup p k with _ | w <;> simp

theorem isNull_eq_false {v : JSON} (h : ¬ v = .null) : v.isNull = false := by
  cases v
  · exact absurd rfl h
  all_goals rfl

/-- Per-index round trip of the embed field list: every field object that was
decoded is re-emitted with the same name, value and inline flag. -/
theorem embedFields_round_trip (js : List JSON) (fs : List EmbedField) (i : Nat)
    (qs : List JSON)
    (hde : deserializeEmbedFieldList js = .ok fs)
    (hse : serializeEmbedFields i fs = .ok qs) :
    qs.length = js.length ∧
    ∀ jdx fo, js.get? jdx = some (.obj fo) →
      ∃ qo, qs.get? jdx = some (.obj qo) ∧
        (∀ s, jLookup fo "name" = some (.str s) → jLookup qo "name" = some (.str s)) ∧
        (∀ s, jLookup fo "value" = some (.str s) → jLookup qo "value" = some (.str s)) ∧
        (∀ b, jLookup fo "inline" = some b → jLookup qo "inline" = some b) := by
  induction js generalizing fs i qs with
  | nil =>
    rw [deserializeEmbedFieldList] at hde
    cases hde
    rw [serializeEmbedFields] at hse
    cases hse
    refine ⟨rfl, ?_⟩
    intro jdx fo hjdx
    simp at hjdx
  | cons j rest ih =>
    rw [deserializeEmbedFieldList] at hde
    simp only [except_bind_ok, except_pure_eq_ok, Except.ok.injEq] at hde
    obtain ⟨f, hf1, tail, htail, heq⟩ := hde
    subst heq
    rw [serializeEmbedFields] at hse
    simp only [except_bind_ok, except_pure_eq_ok, Except.ok.injEq] at hse
    obtain ⟨n, hn, v, hv, qtail, hqtail, hqeq⟩ := hse
    subst hqeq
    obtain ⟨ihlen, ihidx⟩ := ih tail (i + 1) qtail htail hqtail
    refine ⟨by simp [ihlen], ?_⟩
    intro jdx fo hjdx
    cases jdx with
    | zero =>
      rw [List.get?_cons_zero] at hjdx
      injection hjdx with hj
      subst hj
      rw [deserializeEmbedField1] at hf1
      simp only [asObj, except_ok_bind, except_bind_ok, except_pure_eq_ok,
        Except.ok.injEq] at hf1
      obtain ⟨nval, hnval, vval, hvval, hfeq⟩ := hf1
      refine ⟨[("name", .str n), ("value", .str v), ("inline", f.isInline)], rfl, ?_, ?_, ?_⟩
      · intro s hs
        have hnv : nval = .str s := by
          have := (req_eq_ok_iff fo "name" nval).mp hnval
          rw [hs] at this
          injection this with hh
          exact hh.symm
        have hfname : f.name = .str s := by
          rw [← hfeq]
          exact hnv
        have hnn : n = s := by
          rw [checkEmbedFieldName_ok_val i f n hn, hfname]
          rfl
        rw [jLookup, if_pos rfl, hnn]
      · intro s hs
        have hvv : vval = .str s := by
          have := (req_eq_ok_iff fo "value" vval).mp hvval
          rw [hs] at this
          injection this with hh
          exact hh.symm
        have hfval : f.value = .str s := by
          rw [← hfeq]
          exact hvv
        have hvn : v = s := by
          rw [checkEmbedFieldValue_ok_val i f v hv, hfval]
          rfl
        rw [jLookup, if_neg (by decide), jLookup, if_pos rfl, hvn]
      · intro b hb
        have hinl : f.isInline = b := by
          rw [← hfeq]
          show getOr fo "inline" (.bool false) = b
          rw [getOr, hb]
          rfl
        rw [jLookup, if_neg (by decide), jLookup, if_neg (by decide), jLookup,
          if_pos rfl, hinl]
    | succ jdx =>
      rw [List.get?_cons_succ] at hjdx
      obtain ⟨qo, hqo, hrest⟩ := ihidx jdx fo hjdx
      exact ⟨qo, by rw [List.get?_cons_succ]; exact hqo, hrest⟩

/-- C6: for every embed payload accepted by `deserialize_embed`, serialising
the result with `serialize_embed` reproduces the original title, description,
url, color, timestamp and per-field name/value/inline entries for all
non-resource fields that were present (with their schema types: strings for
timestamps and field names/values, a number for color; a present-but-`null`
optional is re-omitted rather than re-emitted, which the claim's "present"
hypothesis excludes). -/
theorem embed_round_trip (p : JObj) (e : Embed) (q : JObj) (ups : List EmbedResource)
    (hde : deserializeEmbed p = .ok e) (hse : serializeEmbed e = .ok (q, ups)) :
    (∀ v, jLookup p "title" = some v → ¬ v = .null → jLookup q "title" = some v)
    ∧ (∀ v, jLookup p "description" = some v → ¬ v = .null →
        jLookup q "description" = some v)
    ∧ (∀ v, jLookup p "url" = some v → ¬ v = .null → jLookup q "url" = some v)
    ∧ (∀ n : Int, jLookup p "color" = some (.num n) → jLookup q "color" = some (.num n))
    ∧ (∀ s, jLookup p "timestamp" = some (.str s) → jLookup q "timestamp" = some (.str s))
    ∧ (∀ js, jLookup p "fields" = some (.arr js) → ¬ js = [] →
        ∃ qjs, jLookup q "fields" = some (.arr qjs) ∧ qjs.length = js.length ∧
          ∀ jdx fo, js.get? jdx = some (.obj fo) →
            ∃ qo, qjs.get? jdx = some (.obj qo) ∧
              (∀ s, jLookup fo "name" = some (.str s) →
                jLookup qo "name" = some (.str s)) ∧
              (∀ s, jLookup fo "value" = some (.str s) →
                jLookup qo "value" = some (.str s)) ∧
              (∀ b, jLookup fo "inline" = some b → jLookup qo "inline" = some b)) := by
  rw [deserializeEmbed] at hde
  simp only [except_bind_ok, except_pure_eq_ok, Except.ok.injEq] at hde
  obtain ⟨col, hcol, ts, hts, im, _, th, _, vid, _, pr, _, au, _, fo, _, fl, hfl, heq⟩ := hde
  obtain ⟨ftail, hq, hfkeys, hftail⟩ := serializeEmbed_ok_shape e q ups hse
  subst hq
  have htitle : e.title = getOpt p "title" := by rw [← heq]
  have hdesc : e.description = getOpt p "description" := by rw [← heq]
  have hurl : e.url = getOpt p "url" := by rw [← heq]
  have hecol : e.color = col := by rw [← heq]
  have hets : e.timestamp = ts := by rw [← heq]
  have hefl : e.fields = fl := by rw [← heq]
  refine ⟨?_, ?_, ?_, ?_, ?_, ?_⟩
  · intro v hv hvn
    have hval : getOpt p "title" = v := by rw [getOpt, hv]; rfl
    have hnn : e.title.isNull = false := by
      rw [htitle, hval]
      exact isNull_eq_false hvn
    have hbt := base_lookup_title e hnn
    rw [htitle, hval] at hbt
    exact jLookup_append_some _ _ _ _ hbt
  · intro v hv hvn
    have hval : getOpt p "description" = v := by rw [getOpt, hv]; rfl
    have hnn : e.description.isNull = false := by
      rw [hdesc, hval]
      exact isNull_eq_false hvn
    have hbt := base_lookup_description e hnn
    rw [hdesc, hval] at hbt
    exact jLookup_append_some _ _ _ _ hbt
  · intro v hv hvn
    have hval : getOpt p "url" = v := by rw [getOpt, hv]; rfl
    have hnn : e.url.isNull = false := by
      rw [hurl, hval]
      exact isNull_eq_false hvn
    have hbt := base_lookup_url e hnn
    rw [hurl, hval] at hbt
    exact jLookup_append_some _ _ _ _ hbt
  · intro n hn
    have hk : hasKey p "color" = true := by rw [hasKey, hn]; rfl
    rw [deserializeEmbedColorPart, if_pos hk] at hcol
    have hgv : getOpt p "color" = .num n := by rw [getOpt, hn]; rfl
    rw [hgv] at hcol
    have hred : (pyInt (JSON.num n)).map Option.some = .ok (some n) := rfl
    rw [hred] at hcol
    injection hcol with hc
    have hcoln : e.color = some n := by rw [hecol, ← hc]
    have hbt := base_lookup_color e n hcoln
    exact jLookup_append_some _ _ _ _ hbt
  · intro s hs
    have hk : hasKey p "timestamp" = true := by rw [hasKey, hs]; rfl
    rw [deserializeEmbedTimestampPart, if_pos hk] at hts
    have hgv : getOpt p "timestamp" = .str s := by rw [getOpt, hs]; rfl
    rw [hgv] at hts
    have hred : (iso8601Parse (JSON.str s)).map Option.some = .ok (some ⟨s⟩) := rfl
    rw [hred] at hts
    injection hts with ht
    have htsd : e.timestamp = some ⟨s⟩ := by rw [hets, ← ht]
    have hbt := base_lookup_timestamp e ⟨s⟩ htsd
    exact jLookup_append_some _ _ _ _ hbt
  · intro js hjs hne
    have hgv : getOpt p "fields" = .arr js := by rw [getOpt, hjs]; rfl
    rw [hgv, deserializeEmbedFieldsPart] at hfl
    have htr : (JSON.arr js).truthy = true := by
      cases js with
      | nil => exact absurd rfl hne
      | cons a l => rfl
    rw [if_pos htr] at hfl
    simp only [asArr, except_ok_bind, except_bind_ok, except_pure_eq_ok,
      Except.ok.injEq] at hfl
    obtain ⟨fs, hfs, hfleq⟩ := hfl
    have hefields : e.fields = some fs := by rw [hefl, ← hfleq]
    have hfsne : ¬ fs = [] := by
      intro hc
      subst hc
      have hl := deserializeEmbedFieldList_length js [] hfs
      simp only [List.length_nil] at hl
      exact hne (List.length_eq_zero.mp hl.symm)
    obtain ⟨fjs, hfjs, hftl⟩ := hftail fs hefields hfsne
    subst hftl
    obtain ⟨hlen, hidx⟩ := embedFields_round_trip js fs 0 fjs hfs hfjs
    refine ⟨fjs, ?_, hlen, hidx⟩
    rw [jLookup_append_none _ _ _ (base_lookup_fields_none e), jLookup, if_pos rfl]

/-- A concrete embed payload exercising every round-tripped field. -/
def embedRoundTripPayload : JObj :=
  [("title", .str "t"),
   ("color", .num 123),
   ("timestamp", .str "2020-01-01T00:00:00+00:00"),
   ("fields", .arr [.obj [("name", .str "n"), ("value", .str "v"), ("inline", .bool true)]])]

def embedRoundTripModel : Embed :=
  ⟨.str "t", .null, .null, some 123, some ⟨"2020-01-01T00:00:00+00:00"⟩,
    none, none, none, none, none, none,
    some [⟨.str "n", .str "v", .bool true⟩]⟩

def embedRoundTripOut : JObj :=
  [("title", .str "t"),
   ("timestamp", .str "2020-01-01T00:00:00+00:00"),
   ("color", .num 123),
   ("fields", .arr [.obj [("name", .str "n"), ("value", .str "v"), ("inline", .bool true)]])]

theorem embed_round_trip_witness :
    deserializeEmbed embedRoundTripPayload = .ok embedRoundTripModel
    ∧ serializeEmbed embedRoundTripModel = .ok (embedRoundTripOut, [])
    ∧ jLookup embedRoundTripOut "title" = some (.str "t")
    ∧ jLookup embedRoundTripOut "color" = some (.num 123)
    ∧ jLookup embedRoundTripOut "timestamp" = some (.str "2020-01-01T00:00:00+00:00") := by
  refine ⟨rfl, rfl, ?_, ?_, ?_⟩
  · exact (embed_round_trip embedRoundTripPayload embedRoundTripModel embedRoundTripOut []
      rfl rfl).1 (.str "t") rfl (by simp)
  · exact (embed_round_trip embedRoundTripPayload embedRoundTripModel embedRoundTripOut []
      rfl rfl).2.2.2.1 123 rfl
  · exact (embed_round_trip embedRoundTripPayload embedRoundTripModel embedRoundTripOut []
      rfl rfl).2.2.2.2.1 "2020-01-01T00:00:00+00:00" rfl

/-! ## Users and channels -/

/-- `users.UserImpl` as filled in by `_set_user_attributes` plus the
`public_flags` handling of `deserialize_user` (the `UserFlag` int-flag enum
is outside the sources; it is int-valued and `UserFlag.NONE` is 0, modelled
from the spec). -/
structure User where
  id : Snowflake
  discriminator : JSON
  username : JSON
  avatarHash : JSON
  isBot : JSON
  isSystem : JSON
  flags : Int

/-- `UserFlag(payload["public_flags"]) if "public_flags" in payload else
UserFlag.NONE`. -/
def deserializeUserFlags (p : JObj) : Except Err Int :=
  if hasKey p "public_flags" then pyInt (getOpt p "public_flags") else pure 0

def deserializeUser (p : JObj) : Except Err User := do
  let idj ← req p "id"
  let id ← asSnowflake idj
  let disc ← req p "discriminator"
  let un ← req p "username"
  let av ← req p "avatar"
  let flags ← deserializeUserFlags p
  pure ⟨id, disc, un, av, getOr p "bot" (.bool false), getOr p "system" (.bool false), flags⟩

/-- `channels.PermissionOverwrite` (the overwrite-type and permission enums
are outside the sources and modelled from the spec as passthrough wrappers of
the raw value, which known members equal). -/
structure PermissionOverwrite where
  id : Snowflake
  type : JSON
  allow : Int
  deny : Int

def deserializePermissionOverwrite (p : JObj) : Except Err PermissionOverwrite := do
  let idj ← req p "id"
  let id ← asSnowflake idj
  let tj ← req p "type"
  let allowj ← req p "allow_new"
  let allow ← pyInt allowj
  let denyj ← req p "deny_new"
  let deny ← pyInt denyj
  pure ⟨id, tj, allow, deny⟩

/-- One entry of the `{Snowflake(o["id"]): deserialize_permission_overwrite(o)}`
comprehension. -/
def deserializeOverwriteEntry (j : JSON) : Except Err (Snowflake × PermissionOverwrite) := do
  let o ← asObj j
  let idj ← req o "id"
  let key ← asSnowflake idj
  let po ← deserializePermissionOverwrite o
  pure (key, po)

def deserializeOverwriteList : List JSON → Except Err (List (Snowflake × PermissionOverwrite))
  | [] => .ok []
  | j :: rest => do
    let e ← deserializeOverwriteEntry j
    let tail ← deserializeOverwriteList rest
    pure (e :: tail)

/-- `_set_partial_channel_attributes`.  `ChannelType(payload["type"])` is
modelled from the spec as a passthrough of the raw value: the enum module is
outside the sources, and per the spec unknown enum values are retained raw
while known members are int-valued and equal the raw number. -/
structure PartialChannel where
  id : Snowflake
  name : JSON
  type : JSON

def setPartialChannelAttributes (p : JObj) : Except Err PartialChannel := do
  let idj ← req p "id"
  let id ← asSnowflake idj
  let tj ← req p "type"
  pure ⟨id, getOpt p "name", tj⟩

def deserializePartialChannel (p : JObj) : Except Err PartialChannel :=
  setPartialChannelAttributes p

/-- The attributes `_set_guild_channel_attributes` adds on top of the partial
channel. -/
structure GuildChannelCore where
  base : PartialChannel
  guildId : Snowflake
  position : Int
  permissionOverwrites : List (Snowflake × PermissionOverwrite)
  isNsfw : JSON
  parentId : Option Snowflake

/-- `guild_id if guild_id is not undefined.UNDEFINED else
Snowflake(payload["guild_id"])`: the explicit parameter short-circuits
re-derivation from the payload. -/
def deriveGuildId (p : JObj) : UndefinedOr Snowflake → Except Err Snowflake
  | .defined g => pure g
  | .undefined => do
    let j ← req p "guild_id"
    asSnowflake j

/-- `payload.get("parent_id")`, wrapped as a snowflake when non-null. -/
def deriveParentId (p : JObj) : Except Err (Option Snowflake) :=
  match getOpt p "parent_id" with
  | .null => pure none
  | j => (asSnowflake j).map some

def setGuildChannelAttributes (p : JObj) (guildId : UndefinedOr Snowflake) :
    Except Err GuildChannelCore := do
  let base ← setPartialChannelAttributes p
  let gid ← deriveGuildId p guildId
  let posj ← req p "position"
  let pos ← pyInt posj
  let poj ← req p "permission_overwrites"
  let poArr ← asArr poj
  let overwrites ← deserializeOverwriteList poArr
  let parentId ← deriveParentId p
  pure ⟨base, gid, pos, overwrites, getOpt p "nsfw", parentId⟩

/-- `payload["last_message_id"]`, required but nullable. -/
def deriveLastMessageId (p : JObj) : Except Err (Option Snowflake) := do
  let j ← req p "last_message_id"
  match j with
  | .null => pure none
  | v => (asSnowflake v).map some

/-- `payload.get("last_pin_timestamp")`, parsed when non-null. -/
def deriveLastPinTimestamp (p : JObj) : Except Err (Option Datetime) :=
  match getOpt p "last_pin_timestamp" with
  | .null => pure none
  | v => (iso8601Parse v).map some

structure GuildTextChannel where
  core : GuildChannelCore
  topic : JSON
  lastMessageId : Option Snowflake
  rateLimitPerUser : Timedelta
  lastPinTimestamp : Option Datetime

def deserializeGuildTextChannel (p : JObj) (guildId : UndefinedOr Snowflake) :
    Except Err GuildTextChannel := do
  let core ← setGuildChannelAttributes p guildId
  let topic ← req p "topic"
  let lmi ← deriveLastMessageId p
  let rl ← asNum (getOr p "rate_limit_per_user" (.num 0))
  let lpt ← deriveLastPinTimestamp p
  pure ⟨core, topic, lmi, ⟨rl⟩, lpt⟩

structure GuildNewsChannel where
  core : GuildChannelCore
  topic : JSON
  lastMessageId : Option Snowflake
  lastPinTimestamp : Option Datetime

def deserializeGuildNewsChannel (p : JObj) (guildId : UndefinedOr Snowflake) :
    Except Err GuildNewsChannel := do
  let core ← setGuildChannelAttributes p guildId
  let topic ← req p "topic"
  let lmi ← deriveLastMessageId p
  let lpt ← deriveLastPinTimestamp p
  pure ⟨core, topic, lmi, lpt⟩

def deserializeGuildCategory (p : JObj) (guildId : UndefinedOr Snowflake) :
    Except Err GuildChannelCore :=
  setGuildChannelAttributes p guildId

def deserializeGuildStoreChannel (p : JObj) (guildId : UndefinedOr Snowflake) :
    Except Err GuildChannelCore :=
  setGuildChannelAttributes p guildId

structure GuildVoiceChannel where
  core : GuildChannelCore
  bitrate : Int
  userLimit : Int

def deserializeGuildVoiceChannel (p : JObj) (guildId : UndefinedOr Snowflake) :
    Except Err GuildVoiceChannel := do
  let core ← setGuildChannelAttributes p guildId
  let bj ← req p "bitrate"
  let bitrate ← pyInt bj
  let uj ← req p "user_limit"
  let userLimit ← pyInt uj
  pure ⟨core, bitrate, userLimit⟩

structure PrivateTextChannel where
  base : PartialChannel
  lastMessageId : Option Snowflake
  recipient : User

/-- `payload["recipients"][0]`: `IndexError` on an empty list. -/
def firstElem : List JSON → Except Err JSON
  | [] => .error (.indexError "list index out of range")
  | x :: _ => .ok x

def deserializePrivateTextChannel (p : JObj) : Except Err PrivateTextChannel := do
  let base ← setPartialChannelAttributes p
  let lmi ← deriveLastMessageId p
  let recsj ← req p "recipients"
  let recs ← asArr recsj
  let r0 ← firstElem recs
  let ro ← asObj r0
  let recipient ← deserializeUser ro
  pure ⟨base, lmi, recipient⟩

structure GroupPrivateTextChannel where
  base : PartialChannel
  lastMessageId : Option Snowflake
  ownerId : Snowflake
  iconHash : JSON
  nicknames : List (Snowflake × JSON)
  applicationId : Option Snowflake
  recipients : List (Snowflake × User)

def deserializeNickEntry (j : JSON) : Except Err (Snowflake × JSON) := do
  let o ← asObj j
  let idj ← req o "id"
  let key ← asSnowflake idj
  let nick ← req o "nick"
  pure (key, nick)

def deserializeNickList : List JSON → Except Err (List (Snowflake × JSON))
  | [] => .ok []
  | j :: rest => do
    let e ← deserializeNickEntry j
    let tail ← deserializeNickList rest
    pure (e :: tail)

/-- `{... for entry in nicks} if (nicks := payload.get("nicks")) is not None
else {}`. -/
def deriveNicknames (p : JObj) : Except Err (List (Snowflake × JSON)) :=
  match getOpt p "nicks" with
  | .null => pure []
  | j => do
    let arr ← asArr j
    deserializeNickList arr

def deserializeRecipientEntry (j : JSON) : Except Err (Snowflake × User) := do
  let o ← asObj j
  let idj ← req o "id"
  let key ← asSnowflake idj
  let u ← deserializeUser o
  pure (key, u)

def deserializeRecipientList : List JSON → Except Err (List (Snowflake × User))
  | [] => .ok []
  | j :: rest => do
    let e ← deserializeRecipientEntry j
    let tail ← deserializeRecipientList rest
    pure (e :: tail)

/-- `Snowflake(payload["application_id"]) if "application_id" in payload else
None`. -/
def deriveApplicationId (p : JObj) : Except Err (Option Snowflake) :=
  if hasKey p "application_id" then (asSnowflake (getOpt p "application_id")).map some
  else pure none

def deserializePrivateGroupTextChannel (p : JObj) : Except Err GroupPrivateTextChannel := do
  let base ← setPartialChannelAttributes p
  let lmi ← deriveLastMessageId p
  let oj ← req p "owner_id"
  let ownerId ← asSnowflake oj
  let iconHash ← req p "icon"
  let nicknames ← deriveNicknames p
  let applicationId ← deriveApplicationId p
  let recsj ← req p "recipients"
  let recs ← asArr recsj
  let recipients ← deserializeRecipientList recs
  pure ⟨base, lmi, ownerId, iconHash, nicknames, applicationId, recipients⟩

inductive Channel where
  | guildCategory (c : GuildChannelCore)
  | guildText (c : GuildTextChannel)
  | guildNews (c : GuildNewsChannel)
  | guildStore (c : GuildChannelCore)
  | guildVoice (c : GuildVoiceChannel)
  | privateText (c : PrivateTextChannel)
  | privateGroup (c : GroupPrivateTextChannel)

/-- The dispatch of `deserialize_channel` on the raw `type` value.  Modelled
from the spec: the numeric codes of the `ChannelType` enum live outside the
sources — the spec's example fixes GUILD_TEXT = 0, and the others are the
platform's documented values (PRIVATE_TEXT 1, GUILD_VOICE 2,
PRIVATE_GROUP_TEXT 3, GUILD_CATEGORY 4, GUILD_NEWS 5, GUILD_STORE 6).  A
type in the guild mapping uses `.get` (with the `guild_id` parameter), a DM
type is found by *indexing* the DM mapping, and anything else raises
`KeyError` — there is no default arm. -/
def deserializeChannelByType : JSON → JObj → UndefinedOr Snowflake → Except Err Channel
  | .num n, p, guildId =>
    if n = 4 then (deserializeGuildCategory p guildId).map .guildCategory
    else if n = 0 then (deserializeGuildTextChannel p guildId).map .guildText
    else if n = 5 then (deserializeGuildNewsChannel p guildId).map .guildNews
    else if n = 6 then (deserializeGuildStoreChannel p guildId).map .guildStore
    else if n = 2 then (deserializeGuildVoiceChannel p guildId).map .guildVoice
    else if n = 1 then (deserializePrivateTextChannel p).map .privateText
    else if n = 3 then (deserializePrivateGroupTextChannel p).map .privateGroup
    else .error (.dispatchKeyError (.num n))
  | other, _, _ => .error (.dispatchKeyError other)

def deserializeChannel (p : JObj) (guildId : UndefinedOr Snowflake) : Except Err Channel := do
  let ctj ← req p "type"
  deserializeChannelByType ctj p guildId

@[simp] theorem except_map_eq_ok {α β : Type} (f : α → β) (m : Except Err α) (r : β) :
    m.map f = .ok r ↔ ∃ a, m = .ok a ∧ f a = r := by
  cases m <;> simp [Except.map]

/-! ### Claim theorems for channel deserialisation (C1, C9) -/

/-- C1 counterexample: deserialising a channel payload whose numeric `type`
is not one of the known channel types *does* raise — the guild mapping
`.get` misses and the DM mapping indexing raises `KeyError` — contradicting
the claim that it never fails. -/
theorem deserialize_channel_unknown_type_raises :
    deserializeChannel [("id", .str "123"), ("type", .num 7)] .undefined =
      .error (.dispatchKeyError (.num 7)) := rfl

/-- C1 (amended): unknown enum values in attribute position are tolerated —
`_set_partial_channel_attributes` retains a raw unknown `type` without
failing — but the polymorphic dispatch of `deserialize_channel` has no
default arm: any numeric `type` outside the seven mapped channel types makes
it raise a `KeyError` (and so does any non-numeric `type`). -/
theorem channel_unknown_type_dispatch (p : JObj) (idv n : Int)
    (g : UndefinedOr Snowflake) :
    (deserializePartialChannel [("id", .num idv), ("type", .num n)] =
      .ok ⟨⟨idv⟩, .null, .num n⟩)
    ∧ (jLookup p "type" = some (.num n) →
        ¬ n = 4 → ¬ n = 0 → ¬ n = 5 → ¬ n = 6 → ¬ n = 2 → ¬ n = 1 → ¬ n = 3 →
        deserializeChannel p g = .error (.dispatchKeyError (.num n))) := by
  constructor
  · rfl
  · intro ht h4 h0 h5 h6 h2 h1 h3
    have hr : req p "type" = .ok (.num n) := by rw [req, ht]
    rw [deserializeChannel, hr]
    show deserializeChannelByType (.num n) p g = _
    rw [deserializeChannelByType]
    rw [if_neg h4, if_neg h0, if_neg h5, if_neg h6, if_neg h2, if_neg h1, if_neg h3]

/-- C9: when the optional `guild_id` parameter is supplied, the resulting
channel's `guild_id` is that parameter (the payload's own key is ignored);
when it is omitted the `guild_id` comes from the payload's `"guild_id"` key
wrapped as a Snowflake, and deserialisation fails when that key is absent
too; in particular a `"type": 0` payload routed through
`deserialize_channel` with no parameter yields a guild text channel whose
`guild_id` is the wrapped payload value. -/
theorem guild_channel_guild_id_parameter (p : JObj) (g : Snowflake) :
    (∀ c, deserializeGuildTextChannel p (.defined g) = .ok c → c.core.guildId = g)
    ∧ (∀ c, deserializeGuildTextChannel p .undefined = .ok c →
        ∃ j, jLookup p "guild_id" = some j ∧ asSnowflake j = .ok c.core.guildId)
    ∧ (jLookup p "guild_id" = none →
        ∀ c, ¬ deserializeGuildTextChannel p .undefined = .ok c)
    ∧ (∀ c, jLookup p "type" = some (.num 0) → deserializeChannel p .undefined = .ok c →
        ∃ ch, c = .guildText ch ∧
          ∃ j, jLookup p "guild_id" = some j ∧ asSnowflake j = .ok ch.core.guildId) := by
  have hPart1 : ∀ c, deserializeGuildTextChannel p (.defined g) = .ok c →
      c.core.guildId = g := by
    intro c hde
    rw [deserializeGuildTextChannel] at hde
    simp only [except_bind_ok, except_pure_eq_ok, Except.ok.injEq] at hde
    obtain ⟨core, hcore, topic, _, lmi, _, rl, _, lpt, _, hc⟩ := hde
    rw [setGuildChannelAttributes] at hcore
    simp only [except_bind_ok, except_pure_eq_ok, Except.ok.injEq] at hcore
    obtain ⟨base, _, gid, hgid, posj, _, pos, _, poj, _, poArr, _, ow, _, par, _, hcoreeq⟩ :=
      hcore
    have : gid = g := by
      rw [deriveGuildId] at hgid
      injection hgid with hh
      exact hh.symm
    rw [← hc, ← hcoreeq, this]
  have hPart2 : ∀ c, deserializeGuildTextChannel p .undefined = .ok c →
      ∃ j, jLookup p "guild_id" = some j ∧ asSnowflake j = .ok c.core.guildId := by
    intro c hde
    rw [deserializeGuildTextChannel] at hde
    simp only [except_bind_ok, except_pure_eq_ok, Except.ok.injEq] at hde
    obtain ⟨core, hcore, topic, _, lmi, _, rl, _, lpt, _, hc⟩ := hde
    rw [setGuildChannelAttributes] at hcore
    simp only [except_bind_ok, except_pure_eq_ok, Except.ok.injEq] at hcore
    obtain ⟨base, _, gid, hgid, posj, _, pos, _, poj, _, poArr, _, ow, _, par, _, hcoreeq⟩ :=
      hcore
    rw [deriveGuildId] at hgid
    simp only [except_bind_ok] at hgid
    obtain ⟨j, hj, hsnow⟩ := hgid
    refine ⟨j, (req_eq_ok_iff p "guild_id" j).mp hj, ?_⟩
    rw [← hc, ← hcoreeq]
    exact hsnow
  refine ⟨hPart1, hPart2, ?_, ?_⟩
  · intro hnone c hok
    obtain ⟨j, hj, _⟩ := hPart2 c hok
    rw [hnone] at hj
    cases hj
  · intro c ht hok
    have hr : req p "type" = .ok (.num 0) := by rw [req, ht]
    rw [deserializeChannel, hr] at hok
    have hok2 : deserializeChannelByType (.num 0) p .undefined = .ok c := hok
    rw [deserializeChannelByType] at hok2
    rw [if_neg (by omega), if_pos rfl] at hok2
    simp only [except_map_eq_ok] at hok2
    obtain ⟨ch, hch, hcheq⟩ := hok2
    exact ⟨ch, hcheq.symm, hPart2 ch hch⟩

/-- Sanity: the spec's worked example — `"type": 0`, no parameter, payload
`guild_id` `"777"` — decodes to a guild text channel whose `guild_id` is the
wrapped identifier 777. -/
theorem guild_text_channel_sanity :
    deserializeChannel
      [("id", .str "42"), ("type", .num 0), ("guild_id", .str "777"),
       ("position", .num 1), ("permission_overwrites", .arr []),
       ("topic", .null), ("last_message_id", .null)] .undefined =
      .ok (.guildText ⟨⟨⟨⟨42⟩, .null, .num 0⟩, ⟨777⟩, 1, [], .null, none⟩,
        .null, none, ⟨0⟩, none⟩) := rfl

/-! ## Members and presences -/

/-- `guilds.Member`, with the source's undefined/null/value distinctions:
`nickname` keeps the raw payload value (so `null` and a string stay apart),
`premium_since` keeps undefined / explicit-`None` / parsed value apart, and
`joined_at` collapses absent-and-null into `UNDEFINED` exactly as the source
does. -/
structure Member where
  user : User
  guildId : Snowflake
  roleIds : List Snowflake
  joinedAt : UndefinedOr Datetime
  nickname : UndefinedOr JSON
  premiumSince : UndefinedOr (Option Datetime)
  isDeaf : UndefinedOr JSON
  isMute : UndefinedOr JSON

/-- `user or self.deserialize_user(payload["user"])`: `UNDEFINED` is falsy,
a user object truthy. -/
def deriveMemberUser (p : JObj) : UndefinedOr User → Except Err User
  | .defined u => pure u
  | .undefined => do
    let j ← req p "user"
    let o ← asObj j
    deserializeUser o

def snowflakeList : List JSON → Except Err (List Snowflake)
  | [] => .ok []
  | j :: rest => do
    let s ← asSnowflake j
    let tail ← snowflakeList rest
    pure (s :: tail)

/-- `joined_at`: absent and `null` both become `UNDEFINED` (the source's
`payload.get` + `is not None` collapse), a string is parsed. -/
def deriveJoinedAt (p : JObj) : Except Err (UndefinedOr Datetime) :=
  if (getOpt p "joined_at").isNull then pure .undefined
  else (iso8601Parse (getOpt p "joined_at")).map .defined

/-- `payload[k] if k in payload else UNDEFINED` for `nick`, `deaf`, `mute`. -/
def deriveUndefField (p : JObj) (k : String) : UndefinedOr JSON :=
  if hasKey p k then .defined (getOpt p k) else .undefined

/-- The `premium_since` tri-state of `deserialize_member`: absent →
`UNDEFINED`, `null` → explicit `None`, string → parsed datetime. -/
def derivePremiumSince (p : JObj) : Except Err (UndefinedOr (Option Datetime)) :=
  if hasKey p "premium_since" then
    if (getOpt p "premium_since").isNull then pure (.defined none)
    else (iso8601Parse (getOpt p "premium_since")).map (fun d => .defined (some d))
  else pure .undefined

def deserializeMember (p : JObj) (user : UndefinedOr User)
    (guildId : UndefinedOr Snowflake) : Except Err Member := do
  let u ← deriveMemberUser p user
  let gid ← deriveGuildId p guildId
  let rolesj ← req p "roles"
  let rolesArr ← asArr rolesj
  let roleIds ← snowflakeList rolesArr
  let joinedAt ← deriveJoinedAt p
  let premiumSince ← derivePremiumSince p
  pure ⟨u, gid, roleIds, joinedAt, deriveUndefField p "nick", premiumSince,
    deriveUndefField p "deaf", deriveUndefField p "mute"⟩

/-- `deserialize_emoji`: a custom emoji when the payload has a non-null
`id`, else a unicode emoji. -/
inductive Emoji where
  | unicode (name : JSON)
  | custom (id : Snowflake) (name : JSON) (isAnimated : JSON)

def deserializeEmojiObj (o : JObj) : Except Err Emoji :=
  if (getOpt o "id").isNull then do
    let n ← req o "name"
    pure (.unicode n)
  else do
    let idj ← req o "id"
    let id ← asSnowflake idj
    let n ← req o "name"
    pure (.custom id n (getOr o "animated" (.bool false)))

structure ActivityTimestamps where
  start : Option Datetime
  stop : Option Datetime

/-- `unix_epoch_to_datetime(tp[k]) if k in tp else None` — the
millisecond-epoch route, distinct from ISO-8601 parsing. -/
def deriveActivityTs (tp : JObj) (k : String) : Except Err (Option Datetime) :=
  if hasKey tp k then do
    let n ← asNum (getOpt tp k)
    pure (some (unixEpochToDatetime n))
  else pure none

def deriveTimestamps (o : JObj) : Except Err (Option ActivityTimestamps) :=
  if hasKey o "timestamps" then do
    let tp ← asObj (getOpt o "timestamps")
    let s ← deriveActivityTs tp "start"
    let e ← deriveActivityTs tp "end"
    pure (some ⟨s, e⟩)
  else pure none

structure ActivityParty where
  id : JSON
  currentSize : Option Int
  maxSize : Option Int

/-- `current_size, max_size = party_payload["size"]` — a two-element
unpack. -/
def unpackPair : List JSON → Except Err (Option Int × Option Int)
  | [a, b] => do
    let ca ← pyInt a
    let cb ← pyInt b
    pure (some ca, some cb)
  | _ => .error (.valueError "cannot unpack party size")

def derivePartySize (pp : JObj) : Except Err (Option Int × Option Int) :=
  if hasKey pp "size" then do
    let arr ← asArr (getOpt pp "size")
    unpackPair arr
  else pure (none, none)

def deriveActivityParty (o : JObj) : Except Err (Option ActivityParty) :=
  if hasKey o "party" then do
    let pp ← asObj (getOpt o "party")
    let sz ← derivePartySize pp
    pure (some ⟨getOpt pp "id", sz.1, sz.2⟩)
  else pure none

structure ActivityAssets where
  largeImage : JSON
  largeText : JSON
  smallImage : JSON
  smallText : JSON

def deriveActivityAssets (o : JObj) : Except Err (Option ActivityAssets) :=
  if hasKey o "assets" then do
    let ap ← asObj (getOpt o "assets")
    pure (some ⟨getOpt ap "large_image", getOpt ap "large_text",
      getOpt ap "small_image", getOpt ap "small_text"⟩)
  else pure none

structure ActivitySecret where
  join : JSON
  spectate : JSON
  matchSecret : JSON

def deriveActivitySecrets (o : JObj) : Except Err (Option ActivitySecret) :=
  if hasKey o "secrets" then do
    let sp ← asObj (getOpt o "secrets")
    pure (some ⟨getOpt sp "join", getOpt sp "spectate", getOpt sp "match"⟩)
  else pure none

def deriveActivityAppId (o : JObj) : Except Err (Option Snowflake) :=
  if hasKey o "application_id" then (asSnowflake (getOpt o "application_id")).map some
  else pure none

def deriveActivityEmoji (o : JObj) : Except Err (Option Emoji) :=
  if (getOpt o "emoji").isNull then pure none
  else do
    let eo ← asObj (getOpt o "emoji")
    (deserializeEmojiObj eo).map some

/-- `ActivityFlag(payload["flags"]) if "flags" in payload else None` (an
int-valued flag enum, outside the sources). -/
def deriveActivityFlags (o : JObj) : Except Err (Option Int) :=
  if hasKey o "flags" then (asNum (getOpt o "flags")).map some else pure none

/-- `presences.RichActivity`.  The `ActivityType` and `Status` enums are
outside the sources and modelled from the spec as passthroughs of the raw
value. -/
structure RichActivity where
  name : JSON
  type : JSON
  url : JSON
  createdAt : Datetime
  timestamps : Option ActivityTimestamps
  applicationId : Option Snowflake
  details : JSON
  state : JSON
  emoji : Option Emoji
  party : Option ActivityParty
  assets : Option ActivityAssets
  secrets : Option ActivitySecret
  isInstance : JSON
  flags : Option Int

def deserializeRichActivity (j : JSON) : Except Err RichActivity := do
  let o ← asObj j
  let name ← req o "name"
  let tyj ← req o "type"
  let caj ← req o "created_at"
  let can ← asNum caj
  let timestamps ← deriveTimestamps o
  let applicationId ← deriveActivityAppId o
  let emoji ← deriveActivityEmoji o
  let party ← deriveActivityParty o
  let assets ← deriveActivityAssets o
  let secrets ← deriveActivitySecrets o
  let flags ← deriveActivityFlags o
  pure ⟨name, tyj, getOpt o "url", unixEpochToDatetime can, timestamps, applicationId,
    getOpt o "details", getOpt o "state", emoji, party, assets, secrets,
    getOpt o "instance", flags⟩

def activityList : List JSON → Except Err (List RichActivity)
  | [] => .ok []
  | j :: rest => do
    let a ← deserializeRichActivity j
    let tail ← activityList rest
    pure (a :: tail)

structure ClientStatus where
  desktop : JSON
  mobile : JSON
  web : JSON

/-- `Status(cs[k]) if k in cs else Status.OFFLINE`; `Status` is a string enum
outside the sources (passthrough), `OFFLINE` being `"offline"`. -/
def deriveClientStatusField (cs : JObj) (k : String) : JSON :=
  if hasKey cs k then getOpt cs k else .str "offline"

structure MemberPresence where
  userId : Snowflake
  roleIds : Option (List Snowflake)
  guildId : Snowflake
  visibleStatus : JSON
  activities : List RichActivity
  clientStatus : ClientStatus
  premiumSince : Option Datetime
  nickname : JSON

def derivePresenceRoleIds (p : JObj) : Except Err (Option (List Snowflake)) :=
  if hasKey p "roles" then do
    let arr ← asArr (getOpt p "roles")
    (snowflakeList arr).map some
  else pure none

/-- The `premium_since` handling of `deserialize_member_presence`: a bare
`payload.get` + `is not None` — absent and `null` both become `None` (the
source's own TODO notes the collapse). -/
def derivePresencePremiumSince (p : JObj) : Except Err (Option Datetime) :=
  if (getOpt p "premium_since").isNull then pure none
  else (iso8601Parse (getOpt p "premium_since")).map some

def deserializeMemberPresence (p : JObj) (guildId : UndefinedOr Snowflake) :
    Except Err MemberPresence := do
  let uj ← req p "user"
  let uo ← asObj uj
  let uidj ← req uo "id"
  let userId ← asSnowflake uidj
  let roleIds ← derivePresenceRoleIds p
  let gid ← deriveGuildId p guildId
  let status ← req p "status"
  let actsj ← req p "activities"
  let actsArr ← asArr actsj
  let activities ← activityList actsArr
  let csj ← req p "client_status"
  let cs ← asObj csj
  let premiumSince ← derivePresencePremiumSince p
  pure ⟨userId, roleIds, gid, status, activities,
    ⟨deriveClientStatusField cs "desktop", deriveClientStatusField cs "mobile",
      deriveClientStatusField cs "web"⟩, premiumSince, getOpt p "nick"⟩

/-! ### Claim theorems for the member/presence tri-state (C4) -/

def presenceAbsentPayload : JObj :=
  [("user", .obj [("id", .str "1")]), ("guild_id", .str "2"), ("status", .str "online"),
   ("activities", .arr []), ("client_status", .obj [])]

def presenceNullPayload : JObj :=
  [("user", .obj [("id", .str "1")]), ("guild_id", .str "2"), ("status", .str "online"),
   ("activities", .arr []), ("client_status", .obj []),
   ("premium_since", .null), ("nick", .null)]

/-- C4 counterexample: `deserialize_member_presence` maps a payload with
`premium_since`/`nick` *absent* and one with them *present-but-null* to the
same model value (`None` premium-since, `None` nickname) — the three input
states are not mapped to three distinct representations there. -/
theorem member_presence_collapses_absent_and_null :
    deserializeMemberPresence presenceAbsentPayload .undefined =
      .ok ⟨⟨1⟩, none, ⟨2⟩, .str "online", [],
        ⟨.str "offline", .str "offline", .str "offline"⟩, none, .null⟩
    ∧ deserializeMemberPresence presenceNullPayload .undefined =
      .ok ⟨⟨1⟩, none, ⟨2⟩, .str "online", [],
        ⟨.str "offline", .str "offline", .str "offline"⟩, none, .null⟩ :=
  ⟨rfl, rfl⟩

/-- C4 (amended): `deserialize_member` maps the three input states of `nick`
and `premium_since` to three distinct representations (undefined marker /
explicit null / value); `deserialize_member_presence`, however, collapses
absent and present-but-null into `None` for both of its `premium_since` and
`nickname` fields (the source carries a TODO noting exactly this). -/
theorem member_tristate_and_presence_collapse (p : JObj) (u : UndefinedOr User)
    (g : UndefinedOr Snowflake) :
    (∀ m, deserializeMember p u g = .ok m →
      ((jLookup p "nick" = none → m.nickname = .undefined)
       ∧ (∀ v, jLookup p "nick" = some v → m.nickname = .defined v)
       ∧ (jLookup p "premium_since" = none → m.premiumSince = .undefined)
       ∧ (jLookup p "premium_since" = some .null → m.premiumSince = .defined none)
       ∧ (∀ s, jLookup p "premium_since" = some (.str s) →
          m.premiumSince = .defined (some ⟨s⟩))))
    ∧ (∀ pr, deserializeMemberPresence p g = .ok pr →
      ((jLookup p "premium_since" = none → pr.premiumSince = none)
       ∧ (jLookup p "premium_since" = some .null → pr.premiumSince = none)
       ∧ (∀ s, jLookup p "premium_since" = some (.str s) → pr.premiumSince = some ⟨s⟩)
       ∧ (jLookup p "nick" = none → pr.nickname = .null)
       ∧ (jLookup p "nick" = some .null → pr.nickname = .null)
       ∧ (∀ v, jLookup p "nick" = some v → pr.nickname = v)))
    ∧ ((UndefinedOr.undefined : UndefinedOr JSON) ≠ .defined .null
       ∧ ∀ v : JSON, ¬ v = .null →
          ((UndefinedOr.defined v ≠ .defined .null)
           ∧ (UndefinedOr.undefined : UndefinedOr JSON) ≠ .defined v)) := by
  refine ⟨?_, ?_, by simp, ?_⟩
  · intro m hde
    rw [deserializeMember] at hde
    simp only [except_bind_ok, except_pure_eq_ok, Except.ok.injEq] at hde
    obtain ⟨u2, _, gid, _, rolesj, _, rolesArr, _, roleIds, _, ja, _, ps, hps, hm⟩ := hde
    refine ⟨?_, ?_, ?_, ?_, ?_⟩
    · intro h
      rw [← hm]
      show deriveUndefField p "nick" = .undefined
      rw [deriveUndefField, if_neg (by rw [hasKey, h]; simp)]
    · intro v h
      rw [← hm]
      show deriveUndefField p "nick" = .defined v
      rw [deriveUndefField, if_pos (by rw [hasKey, h]; rfl), getOpt, h]
      rfl
    · intro h
      rw [derivePremiumSince, if_neg (by rw [hasKey, h]; simp)] at hps
      simp only [except_pure_eq_ok, Except.ok.injEq] at hps
      rw [← hm]
      exact hps.symm
    · intro h
      rw [derivePremiumSince, if_pos (by rw [hasKey, h]; rfl)] at hps
      rw [if_pos (by rw [getOpt, h]; rfl)] at hps
      simp only [except_pure_eq_ok, Except.ok.injEq] at hps
      rw [← hm]
      exact hps.symm
    · intro s h
      have hgv : getOpt p "premium_since" = .str s := by rw [getOpt, h]; rfl
      rw [derivePremiumSince, if_pos (by rw [hasKey, h]; rfl), hgv,
        if_neg (by simp [JSON.isNull])] at hps
      have hred : (iso8601Parse (JSON.str s)).map
          (fun d => (UndefinedOr.defined (some d) : UndefinedOr (Option Datetime))) =
          .ok (.defined (some ⟨s⟩)) := rfl
      rw [hred] at hps
      injection hps with hh
      rw [← hm]
      exact hh.symm
  · intro pr hde
    rw [deserializeMemberPresence] at hde
    simp only [except_bind_ok, except_pure_eq_ok, Except.ok.injEq] at hde
    obtain ⟨uj, _, uo, _, uidj, _, userId, _, roleIds, _, gid, _, status, _, actsj, _,
      actsArr, _, acts, _, csj, _, cs, _, ps, hps, hm⟩ := hde
    refine ⟨?_, ?_, ?_, ?_, ?_, ?_⟩
    · intro h
      rw [derivePresencePremiumSince, if_pos (by rw [getOpt, h]; rfl)] at hps
      simp only [except_pure_eq_ok, Except.ok.injEq] at hps
      rw [← hm]
      exact hps.symm
    · intro h
      rw [derivePresencePremiumSince, if_pos (by rw [getOpt, h]; rfl)] at hps
      simp only [except_pure_eq_ok, Except.ok.injEq] at hps
      rw [← hm]
      exact hps.symm
    · intro s h
      have hgv : getOpt p "premium_since" = .str s := by rw [getOpt, h]; rfl
      rw [derivePresencePremiumSince, hgv, if_neg (by simp [JSON.isNull])] at hps
      have hred : (iso8601Parse (JSON.str s)).map some = .ok (some ⟨s⟩) := rfl
      rw [hred] at hps
      injection hps with hh
      rw [← hm]
      exact hh.symm
    · intro h
      rw [← hm]
      show getOpt p "nick" = .null
      rw [getOpt, h]
      rfl
    · intro h
      rw [← hm]
      show getOpt p "nick" = .null
      rw [getOpt, h]
      rfl
    · intro v h
      rw [← hm]
      show getOpt p "nick" = v
      rw [getOpt, h]
      rfl
  · intro v hv
    refine ⟨?_, ?_⟩
    · intro hc
      injection hc with hh
      exact hv hh
    · intro hc
      exact UndefinedOr.noConfusion hc

/-! ## Invites -/

/-- `_deserialize_max_uses` (module-level helper, applied by the audit-log
change converters): 0 becomes the explicit no-limit marker. -/
def deserializeMaxUses (age : Int) : Option Int :=
  if age > 0 then some age else none

/-- `_deserialize_max_age` (module-level helper, applied by the audit-log
change converters). -/
def deserializeMaxAge (seconds : Int) : Option Timedelta :=
  if seconds > 0 then some ⟨seconds⟩ else none

/-- `_set_partial_guild_attributes`: `GuildFeature` is outside the sources;
per the spec unknown feature strings pass through raw and known members equal
their raw string, so the raw feature list represents both. -/
structure PartialGuildAttrs where
  id : Snowflake
  name : JSON
  iconHash : JSON
  features : List JSON

def setPartialGuildAttributes (p : JObj) : Except Err PartialGuildAttrs := do
  let idj ← req p "id"
  let id ← asSnowflake idj
  let name ← req p "name"
  let icon ← req p "icon"
  let fj ← req p "features"
  let fs ← asArr fj
  pure ⟨id, name, icon, fs⟩

/-- `invites.InviteGuild` (`GuildVerificationLevel` passthrough-modelled). -/
structure InviteGuild where
  id : Snowflake
  name : JSON
  iconHash : JSON
  features : List JSON
  splashHash : JSON
  bannerHash : JSON
  description : JSON
  verificationLevel : JSON
  vanityUrlCode : JSON

def deserializeInviteGuild (gp : JObj) : Except Err InviteGuild := do
  let base ← setPartialGuildAttributes gp
  let splash ← req gp "splash"
  let banner ← req gp "banner"
  let desc ← req gp "description"
  let vl ← req gp "verification_level"
  let vanity ← req gp "vanity_url_code"
  pure ⟨base.id, base.name, base.iconHash, base.features, splash, banner, desc, vl, vanity⟩

/-- The guild / guild_id derivation of `_set_invite_attributes`: an embedded
guild object wins, else the bare `guild_id` key, else neither. -/
def deriveInviteGuildPart (p : JObj) : Except Err (Option InviteGuild × Option Snowflake) :=
  if hasKey p "guild" then do
    let gp ← asObj (getOpt p "guild")
    let g ← deserializeInviteGuild gp
    pure (some g, some g.id)
  else if hasKey p "guild_id" then do
    let s ← asSnowflake (getOpt p "guild_id")
    pure (none, some s)
  else pure (none, none)

/-- The channel / channel_id derivation: a non-null embedded channel object
wins, else the required `channel_id` key. -/
def deriveInviteChannelPart (p : JObj) : Except Err (Option PartialChannel × Snowflake) :=
  if (getOpt p "channel").isNull then do
    let cidj ← req p "channel_id"
    let cid ← asSnowflake cidj
    pure (none, cid)
  else do
    let co ← asObj (getOpt p "channel")
    let c ← deserializePartialChannel co
    pure (some c, c.id)

/-- `deserialize_user(payload[k]) if k in payload else None`. -/
def deriveInviteUser (p : JObj) (k : String) : Except Err (Option User) :=
  if hasKey p k then do
    let o ← asObj (getOpt p k)
    (deserializeUser o).map some
  else pure none

/-- `TargetUserType(...) if present else None` (enum outside the sources,
passthrough-modelled). -/
def deriveTargetUserType (p : JObj) : Option JSON :=
  if hasKey p "target_user_type" then some (getOpt p "target_user_type") else none

def deriveApproxCount (p : JObj) (k : String) : Except Err (Option Int) :=
  if hasKey p k then (pyInt (getOpt p k)).map some else pure none

structure InviteAttrs where
  code : JSON
  guild : Option InviteGuild
  guildId : Option Snowflake
  channel : Option PartialChannel
  channelId : Snowflake
  inviter : Option User
  targetUser : Option User
  targetUserType : Option JSON
  approximatePresenceCount : Option Int
  approximateMemberCount : Option Int

def setInviteAttributes (p : JObj) : Except Err InviteAttrs := do
  let code ← req p "code"
  let gpart ← deriveInviteGuildPart p
  let cpart ← deriveInviteChannelPart p
  let inviter ← deriveInviteUser p "inviter"
  let target ← deriveInviteUser p "target_user"
  let apc ← deriveApproxCount p "approximate_presence_count"
  let amc ← deriveApproxCount p "approximate_member_count"
  pure ⟨code, gpart.1, gpart.2, cpart.1, cpart.2, inviter, target,
    deriveTargetUserType p, apc, amc⟩

/-- `invites.InviteWithMetadata`: note `max_uses` is stored as the raw
`int(payload["max_uses"])` while `max_age` gets the zero-to-`None`
conversion inline. -/
structure InviteWithMetadata where
  code : JSON
  guild : Option InviteGuild
  guildId : Option Snowflake
  channel : Option PartialChannel
  channelId : Snowflake
  inviter : Option User
  targetUser : Option User
  targetUserType : Option JSON
  approximatePresenceCount : Option Int
  approximateMemberCount : Option Int
  uses : Int
  maxUses : Int
  maxAge : Option Timedelta
  isTemporary : JSON
  createdAt : Datetime

def deserializeInviteWithMetadata (p : JObj) : Except Err InviteWithMetadata := do
  let attrs ← setInviteAttributes p
  let usesj ← req p "uses"
  let uses ← pyInt usesj
  let muj ← req p "max_uses"
  let maxUses ← pyInt muj
  let maj ← req p "max_age"
  let maxAgeN ← asNum maj
  let tempj ← req p "temporary"
  let caj ← req p "created_at"
  let createdAt ← iso8601Parse caj
  pure ⟨attrs.code, attrs.guild, attrs.guildId, attrs.channel, attrs.channelId,
    attrs.inviter, attrs.targetUser, attrs.targetUserType,
    attrs.approximatePresenceCount, attrs.approximateMemberCount,
    uses, maxUses, (if maxAgeN > 0 then some ⟨maxAgeN⟩ else none), tempj, createdAt⟩

/-! ### Claim theorems for invite decoding (C5) -/

def inviteZeroPayload : JObj :=
  [("code", .str "abc"), ("channel_id", .str "5"), ("uses", .num 1),
   ("max_uses", .num 0), ("max_age", .num 0), ("temporary", .bool false),
   ("created_at", .str "2020-01-01T00:00:00+00:00")]

def inviteZeroResult : InviteWithMetadata :=
  ⟨.str "abc", none, none, none, ⟨5⟩, none, none, none, none, none,
    1, 0, none, .bool false, ⟨"2020-01-01T00:00:00+00:00"⟩⟩

/-- C5 counterexample: an invite payload with `"max_uses": 0` decodes to the
raw integer 0 in the `max_uses` field — an `int`-typed attribute with no
no-limit marker — while `"max_age": 0` in the same payload does decode to
the explicit marker.  The claim's `max_uses` clause is false on the code. -/
theorem invite_max_uses_zero_not_marker :
    deserializeInviteWithMetadata inviteZeroPayload = .ok inviteZeroResult
    ∧ inviteZeroResult.maxUses = 0
    ∧ inviteZeroResult.maxAge = none :=
  ⟨rfl, rfl, rfl⟩

/-- C5 (amended): `max_age` of 0 decodes to the explicit no-limit marker and
a positive `max_age` of `s` seconds to a duration of exactly `s` seconds
(86400 being one day); `max_uses`, however, is stored as the raw integer —
`0` included — by `deserialize_invite_with_metadata`; the zero-to-marker
helper for uses (`_deserialize_max_uses`) exists but is applied only by the
audit-log change converters. -/
theorem invite_max_age_and_uses_decoding (p : JObj) (inv : InviteWithMetadata)
    (h : deserializeInviteWithMetadata p = .ok inv) :
    (∀ n : Int, jLookup p "max_age" = some (.num n) →
      ((0 < n → inv.maxAge = some ⟨n⟩) ∧ (n ≤ 0 → inv.maxAge = none)))
    ∧ (∀ n : Int, jLookup p "max_uses" = some (.num n) → inv.maxUses = n)
    ∧ Timedelta.mk 86400 = timedeltaDays 1
    ∧ deserializeMaxUses 0 = none := by
  rw [deserializeInviteWithMetadata] at h
  simp only [except_bind_ok, except_pure_eq_ok, Except.ok.injEq] at h
  obtain ⟨attrs, _, usesj, _, uses, _, muj, hmuj, mu, hmu, maj, hmaj, man, hman,
    tempj, _, caj, _, ca, _, hm⟩ := h
  refine ⟨?_, ?_, rfl, rfl⟩
  · intro n hn
    have hj : maj = .num n := by
      have := (req_eq_ok_iff p "max_age" maj).mp hmaj
      rw [hn] at this
      injection this with hh
      exact hh.symm
    subst hj
    have hred : asNum (JSON.num n) = .ok n := rfl
    rw [hred] at hman
    injection hman with hh
    subst hh
    constructor
    · intro hpos
      rw [← hm]
      show (if n > 0 then some (Timedelta.mk n) else none) = some ⟨n⟩
      rw [if_pos hpos]
    · intro hnonpos
      rw [← hm]
      show (if n > 0 then some (Timedelta.mk n) else none) = none
      rw [if_neg (by omega)]
  · intro n hn
    have hj : muj = .num n := by
      have := (req_eq_ok_iff p "max_uses" muj).mp hmuj
      rw [hn] at this
      injection this with hh
      exact hh.symm
    subst hj
    have hred : pyInt (JSON.num n) = .ok n := rfl
    rw [hred] at hmu
    injection hmu with hh
    subst hh
    rw [← hm]

def inviteDayPayload : JObj :=
  [("code", .str "abc"), ("channel_id", .str "5"), ("uses", .num 1),
   ("max_uses", .num 5), ("max_age", .num 86400), ("temporary", .bool false),
   ("created_at", .str "2020-01-01T00:00:00+00:00")]

def inviteDayResult : InviteWithMetadata :=
  ⟨.str "abc", none, none, none, ⟨5⟩, none, none, none, none, none,
    1, 5, some ⟨86400⟩, .bool false, ⟨"2020-01-01T00:00:00+00:00"⟩⟩

theorem invite_decoding_witness :
    deserializeInviteWithMetadata inviteDayPayload = .ok inviteDayResult
    ∧ inviteDayResult.maxAge = some (timedeltaDays 1)
    ∧ inviteDayResult.maxUses = 5 := by
  refine ⟨rfl, ?_, ?_⟩
  · have h := (invite_max_age_and_uses_decoding inviteDayPayload inviteDayResult rfl).1
      86400 rfl
    have h2 := h.1 (by norm_num)
    rw [h2]
    rfl
  · exact (invite_max_age_and_uses_decoding inviteDayPayload inviteDayResult rfl).2.1 5 rfl

/-! ## Audit logs -/

structure PartialRole where
  id : Snowflake
  name : JSON

/-- One entry of `_deserialize_audit_log_change_roles`. -/
def deserializePartialRoleEntry (j : JSON) : Except Err (Snowflake × PartialRole) := do
  let o ← asObj j
  let idj ← req o "id"
  let id ← asSnowflake idj
  let name ← req o "name"
  pure (id, ⟨id, name⟩)

def rolesList : List JSON → Except Err (List (Snowflake × PartialRole))
  | [] => .ok []
  | j :: rest => do
    let e ← deserializePartialRoleEntry j
    let tail ← rolesList rest
    pure (e :: tail)

/-- The result of an audit-log change-value converter: snowflake wrapping,
duration conversion, enum wrapping (passthrough-modelled, the enum modules
being outside the sources), permission/colour wrapping, the max-uses/max-age
markers, role/overwrite maps, or the raw value when no converter applies. -/
inductive AuditVal where
  | raw (j : JSON)
  | snow (s : Snowflake)
  | delta (t : Timedelta)
  | intVal (n : Int)
  | strVal (s : String)
  | boolVal (b : Bool)
  | permission (n : Int)
  | colorVal (n : Int)
  | enumPass (enumName : String) (rawVal : JSON)
  | optIntVal (o : Option Int)
  | optDelta (o : Option Timedelta)
  | rolesMap (rs : List (Snowflake × PartialRole))
  | overwritesMap (os : List (Snowflake × PermissionOverwrite))

def convSnowflake (j : JSON) : Except Err AuditVal := (asSnowflake j).map .snow

/-- `_deserialize_seconds_timedelta`. -/
def convSecondsTimedelta (j : JSON) : Except Err AuditVal := do
  let n ← pyInt j
  pure (.delta ⟨n⟩)

/-- `_deserialize_day_timedelta`. -/
def convDayTimedelta (j : JSON) : Except Err AuditVal := do
  let n ← pyInt j
  pure (.delta (timedeltaDays n))

def convInt (j : JSON) : Except Err AuditVal := (pyInt j).map .intVal

def convStr (j : JSON) : Except Err AuditVal := .ok (.strVal (pyStr j))

def convBool (j : JSON) : Except Err AuditVal := .ok (.boolVal j.truthy)

def convPermission (j : JSON) : Except Err AuditVal := (asNum j).map .permission

def convColor (j : JSON) : Except Err AuditVal := (pyInt j).map .colorVal

def convEnum (enumName : String) (j : JSON) : Except Err AuditVal :=
  .ok (.enumPass enumName j)

/-- `_deserialize_max_uses` as the converter for the `max_uses` change key. -/
def convMaxUses (j : JSON) : Except Err AuditVal := do
  let n ← asNum j
  pure (.optIntVal (deserializeMaxUses n))

/-- `_deserialize_max_age` as the converter for the `max_age` change key. -/
def convMaxAge (j : JSON) : Except Err AuditVal := do
  let n ← asNum j
  pure (.optDelta (deserializeMaxAge n))

def convRoles (j : JSON) : Except Err AuditVal := do
  let arr ← asArr j
  (rolesList arr).map .rolesMap

/-- `_deserialize_audit_log_overwrites`. -/
def convOverwrites (j : JSON) : Except Err AuditVal := do
  let arr ← asArr j
  (deserializeOverwriteList arr).map .overwritesMap

/-- `_audit_log_entry_converters`, keyed by the change key's wire string.
Modelled from the spec for the key strings: the `AuditLogChangeKey` enum is
outside the sources, but its members are the platform's snake-case wire
strings (the repository's own test fixes `AuditLogChangeKey("owner_id")`).
A key outside this table — recognised member or not — gets no converter and
passes values through raw. -/
def auditLogChangeConverter : String → Option (JSON → Except Err AuditVal)
  | "owner_id" => some convSnowflake
  | "afk_channel_id" => some convSnowflake
  | "afk_timeout" => some convSecondsTimedelta
  | "mfa_level" => some (convEnum "GuildMFALevel")
  | "verification_level" => some (convEnum "GuildVerificationLevel")
  | "explicit_content_filter" => some (convEnum "GuildExplicitContentFilterLevel")
  | "default_message_notifications" => some (convEnum "GuildMessageNotificationsLevel")
  | "prune_delete_days" => some convDayTimedelta
  | "widget_channel_id" => some convSnowflake
  | "position" => some convInt
  | "bitrate" => some convInt
  | "application_id" => some convSnowflake
  | "permissions" => some convPermission
  | "color" => some convColor
  | "allow" => some convPermission
  | "deny" => some convPermission
  | "channel_id" => some convSnowflake
  | "inviter_id" => some convSnowflake
  | "max_uses" => some convMaxUses
  | "uses" => some convInt
  | "max_age" => some convMaxAge
  | "id" => some convSnowflake
  | "type" => some convStr
  | "enable_emoticons" => some convBool
  | "expire_behavior" => some (convEnum "IntegrationExpireBehaviour")
  | "expire_grace_period" => some convDayTimedelta
  | "rate_limit_per_user" => some convSecondsTimedelta
  | "system_channel_id" => some convSnowflake
  | "$add" => some convRoles
  | "$remove" => some convRoles
  | "permission_overwrites" => some convOverwrites
  | _ => none

def findChangeConverter : JSON → Option (JSON → Except Err AuditVal)
  | .str s => auditLogChangeConverter s
  | _ => none

structure AuditLogChange where
  key : JSON
  newValue : Option AuditVal
  oldValue : Option AuditVal

/-- `value_converter(v) if v is not None else None`, or the raw value (null
included) when no converter applies. -/
def applyChangeConverter : Option (JSON → Except Err AuditVal) → JSON →
    Except Err (Option AuditVal)
  | some c, j => if j.isNull then pure none else (c j).map some
  | none, j => if j.isNull then pure none else .ok (some (.raw j))

/-- One iteration of the `changes` loop: the key is kept raw (a recognised
enum member equals its wire string), both values go through the same
converter independently. -/
def deserializeAuditLogChange (j : JSON) : Except Err AuditLogChange := do
  let cp ← asObj j
  let key ← req cp "key"
  let nv ← applyChangeConverter (findChangeConverter key) (getOpt cp "new_value")
  let ov ← applyChangeConverter (findChangeConverter key) (getOpt cp "old_value")
  pure ⟨key, nv, ov⟩

def changeList : List JSON → Except Err (List AuditLogChange)
  | [] => .ok []
  | j :: rest => do
    let c ← deserializeAuditLogChange j
    let tail ← changeList rest
    pure (c :: tail)

/-- The audit-log entry-info variants, with the mandatory
`UnrecognisedAuditLogEntryInfo` fallback wrapping the raw payload. -/
inductive EntryInfo where
  | channelOverwrite (id : Snowflake) (overwriteType : JSON) (roleName : JSON)
  | messagePin (channelId : Snowflake) (messageId : Snowflake)
  | memberPrune (deleteMemberDays : Timedelta) (membersRemoved : Int)
  | messageBulkDelete (count : Int)
  | messageDelete (channelId : Snowflake) (count : Int)
  | memberDisconnect (count : Int)
  | memberMove (channelId : Snowflake) (count : Int)
  | unrecognised (raw : JSON)

def deserializeChannelOverwriteEntryInfo (j : JSON) : Except Err EntryInfo := do
  let o ← asObj j
  let idj ← req o "id"
  let id ← asSnowflake idj
  let tj ← req o "type"
  pure (.channelOverwrite id tj (getOpt o "role_name"))

def deserializeMessagePinEntryInfo (j : JSON) : Except Err EntryInfo := do
  let o ← asObj j
  let cj ← req o "channel_id"
  let cid ← asSnowflake cj
  let mj ← req o "message_id"
  let mid ← asSnowflake mj
  pure (.messagePin cid mid)

def deserializeMemberPruneEntryInfo (j : JSON) : Except Err EntryInfo := do
  let o ← asObj j
  let dj ← req o "delete_member_days"
  let d ← pyInt dj
  let mj ← req o "members_removed"
  let m ← pyInt mj
  pure (.memberPrune (timedeltaDays d) m)

def deserializeMessageBulkDeleteEntryInfo (j : JSON) : Except Err EntryInfo := do
  let o ← asObj j
  let cj ← req o "count"
  let c ← pyInt cj
  pure (.messageBulkDelete c)

def deserializeMessageDeleteEntryInfo (j : JSON) : Except Err EntryInfo := do
  let o ← asObj j
  let chj ← req o "channel_id"
  let cid ← asSnowflake chj
  let cj ← req o "count"
  let c ← pyInt cj
  pure (.messageDelete cid c)

def deserializeMemberDisconnectEntryInfo (j : JSON) : Except Err EntryInfo := do
  let o ← asObj j
  let cj ← req o "count"
  let c ← pyInt cj
  pure (.memberDisconnect c)

def deserializeMemberMoveEntryInfo (j : JSON) : Except Err EntryInfo := do
  let o ← asObj j
  let chj ← req o "channel_id"
  let cid ← asSnowflake chj
  let cj ← req o "count"
  let c ← pyInt cj
  pure (.memberMove cid c)

/-- `_deserialize_unrecognised_audit_log_entry_info`: wraps the raw payload
verbatim, never failing. -/
def deserializeUnrecognisedEntryInfo (j : JSON) : Except Err EntryInfo :=
  .ok (.unrecognised j)

/-- `_audit_log_event_mapping`, keyed by the action type's numeric value.
Modelled from the spec for the codes: the `AuditLogEventType` enum is outside
the sources; the repository's test fixes `AuditLogEventType(80)` =
INTEGRATION_CREATE, and the channel-overwrite (13-15), message-pin (74/75),
member-prune (21), message-bulk-delete (73), message-delete (72),
member-disconnect (27) and member-move (26) codes are the platform's
documented values. -/
def auditLogEventConverter (n : Int) : Option (JSON → Except Err EntryInfo) :=
  if n = 13 ∨ n = 14 ∨ n = 15 then some deserializeChannelOverwriteEntryInfo
  else if n = 74 ∨ n = 75 then some deserializeMessagePinEntryInfo
  else if n = 21 then some deserializeMemberPruneEntryInfo
  else if n = 73 then some deserializeMessageBulkDeleteEntryInfo
  else if n = 72 then some deserializeMessageDeleteEntryInfo
  else if n = 27 then some deserializeMemberDisconnectEntryInfo
  else if n = 26 then some deserializeMemberMoveEntryInfo
  else none

def findEventConverter : JSON → Option (JSON → Except Err EntryInfo)
  | .num n => auditLogEventConverter n
  | _ => none

/-- Modelled from the spec: the full set of numeric `AuditLogEventType`
member values of the era (the enum is outside the sources; the test pins 80),
a superset of the ten mapped codes.  Only non-membership matters to the
claims: a number outside this set cannot be an enum member, so the
`ValueError` branch keeps it raw. -/
def knownAuditLogEventTypes : List Int :=
  [1, 10, 11, 12, 13, 14, 15, 20, 21, 22, 23, 24, 25, 26, 27, 28,
   30, 31, 32, 40, 41, 42, 50, 51, 52, 60, 61, 62, 72, 73, 74, 75, 80, 81, 82]

structure AuditLogEntry where
  id : Snowflake
  targetId : Option Snowflake
  changes : List AuditLogChange
  userId : Option Snowflake
  actionType : JSON
  options : Option EntryInfo
  reason : JSON

/-- `payload[k]`, required but nullable, wrapped as a snowflake. -/
def deriveNullableSnowflake (p : JObj) (k : String) : Except Err (Option Snowflake) := do
  let j ← req p k
  if j.isNull then pure none else (asSnowflake j).map some

/-- `payload.get("changes")`, looping when non-null. -/
def deriveChanges (p : JObj) : Except Err (List AuditLogChange) :=
  if (getOpt p "changes").isNull then pure []
  else do
    let arr ← asArr (getOpt p "changes")
    changeList arr

/-- `option_converter = mapping.get(action_type) or unrecognised`, applied to
a non-null `options` payload. -/
def deriveEntryOptions (p : JObj) (actionType : JSON) : Except Err (Option EntryInfo) :=
  if (getOpt p "options").isNull then pure none
  else (((findEventConverter actionType).getD deserializeUnrecognisedEntryInfo)
    (getOpt p "options")).map some

/-- The body of the entry loop of `deserialize_audit_log`, factored out; the
`action_type` is kept raw (`AuditLogEventType(...)` falls back to the raw
number on `ValueError`, and a recognised member is int-valued and equals the
raw number). -/
def deserializeAuditLogEntry (p : JObj) : Except Err AuditLogEntry := do
  let idj ← req p "id"
  let id ← asSnowflake idj
  let targetId ← deriveNullableSnowflake p "target_id"
  let changes ← deriveChanges p
  let userId ← deriveNullableSnowflake p "user_id"
  let actionType ← req p "action_type"
  let options ← deriveEntryOptions p actionType
  pure ⟨id, targetId, changes, userId, actionType, options, getOpt p "reason"⟩

structure IntegrationAccount where
  id : JSON
  name : JSON

structure PartialIntegration where
  id : Snowflake
  name : JSON
  type : JSON
  account : IntegrationAccount

def deserializePartialIntegration (p : JObj) : Except Err PartialIntegration := do
  let idj ← req p "id"
  let id ← asSnowflake idj
  let name ← req p "name"
  let ty ← req p "type"
  let aj ← req p "account"
  let ao ← asObj aj
  let aid ← req ao "id"
  let aname ← req ao "name"
  pure ⟨id, name, ty, ⟨aid, aname⟩⟩

/-- `webhooks.Webhook` (`WebhookType` passthrough-modelled). -/
structure Webhook where
  id : Snowflake
  type : JSON
  guildId : Option Snowflake
  channelId : Snowflake
  author : Option User
  name : JSON
  avatarHash : JSON
  token : JSON

def deriveKeyedSnowflake (p : JObj) (k : String) : Except Err (Option Snowflake) :=
  if hasKey p k then (asSnowflake (getOpt p k)).map some else pure none

def deriveKeyedUser (p : JObj) (k : String) : Except Err (Option User) :=
  if hasKey p k then do
    let o ← asObj (getOpt p k)
    (deserializeUser o).map some
  else pure none

def deserializeWebhook (p : JObj) : Except Err Webhook := do
  let idj ← req p "id"
  let id ← asSnowflake idj
  let ty ← req p "type"
  let gid ← deriveKeyedSnowflake p "guild_id"
  let cj ← req p "channel_id"
  let cid ← asSnowflake cj
  let author ← deriveKeyedUser p "user"
  let name ← req p "name"
  let avatar ← req p "avatar"
  pure ⟨id, ty, gid, cid, author, name, avatar, getOpt p "token"⟩

structure AuditLog where
  entries : List (Snowflake × AuditLogEntry)
  integrations : List (Snowflake × PartialIntegration)
  users : List (Snowflake × User)
  webhooks : List (Snowflake × Webhook)

/-- `entries[entry.id] = entry` over the entries array (dict assignment). -/
def auditEntriesFold : List JSON → List (Snowflake × AuditLogEntry) →
    Except Err (List (Snowflake × AuditLogEntry))
  | [], acc => .ok acc
  | j :: rest, acc => do
    let o ← asObj j
    let e ← deserializeAuditLogEntry o
    auditEntriesFold rest (dictSet acc e.id e)

/-- The `{Snowflake(i["id"]): deserialize_partial_integration(i)}`
comprehension. -/
def integrationsFold : List JSON → List (Snowflake × PartialIntegration) →
    Except Err (List (Snowflake × PartialIntegration))
  | [], acc => .ok acc
  | j :: rest, acc => do
    let o ← asObj j
    let idj ← req o "id"
    let key ← asSnowflake idj
    let v ← deserializePartialIntegration o
    integrationsFold rest (dictSet acc key v)

def usersFold : List JSON → List (Snowflake × User) → Except Err (List (Snowflake × User))
  | [], acc => .ok acc
  | j :: rest, acc => do
    let o ← asObj j
    let idj ← req o "id"
    let key ← asSnowflake idj
    let v ← deserializeUser o
    usersFold rest (dictSet acc key v)

def webhooksFold : List JSON → List (Snowflake × Webhook) →
    Except Err (List (Snowflake × Webhook))
  | [], acc => .ok acc
  | j :: rest, acc => do
    let o ← asObj j
    let idj ← req o "id"
    let key ← asSnowflake idj
    let v ← deserializeWebhook o
    webhooksFold rest (dictSet acc key v)

def deserializeAuditLog (p : JObj) : Except Err AuditLog := do
  let ej ← req p "audit_log_entries"
  let earr ← asArr ej
  let entries ← auditEntriesFold earr []
  let ij ← req p "integrations"
  let iarr ← asArr ij
  let integrations ← integrationsFold iarr []
  let uj ← req p "users"
  let uarr ← asArr uj
  let users ← usersFold uarr []
  let wj ← req p "webhooks"
  let warr ← asArr wj
  let webhooks ← webhooksFold warr []
  pure ⟨entries, integrations, users, webhooks⟩

/-- A number outside the known event-type codes hits no entry-info
converter. -/
theorem auditLogEventConverter_none (n : Int) (hn : n ∉ knownAuditLogEventTypes) :
    auditLogEventConverter n = none := by
  have h13 : n ≠ 13 := fun he => hn (by rw [he]; decide)
  have h14 : n ≠ 14 := fun he => hn (by rw [he]; decide)
  have h15 : n ≠ 15 := fun he => hn (by rw [he]; decide)
  have h74 : n ≠ 74 := fun he => hn (by rw [he]; decide)
  have h75 : n ≠ 75 := fun he => hn (by rw [he]; decide)
  have h21 : n ≠ 21 := fun he => hn (by rw [he]; decide)
  have h73 : n ≠ 73 := fun he => hn (by rw [he]; decide)
  have h72 : n ≠ 72 := fun he => hn (by rw [he]; decide)
  have h27 : n ≠ 27 := fun he => hn (by rw [he]; decide)
  have h26 : n ≠ 26 := fun he => hn (by rw [he]; decide)
  simp [auditLogEventConverter, h13, h14, h15, h74, h75, h21, h73, h72, h27, h26]

/-- C8: for every audit-log payload containing an entry whose action type is
a number outside the known event-type set and whose options object is present
and non-null, the decoded entry keeps the raw unrecognised number as its
action type and its options field is the verbatim raw options payload wrapped
by the default (unrecognised) decoder — stated both for the entry decoder and
for a full `deserialize_audit_log` run over such an entry. -/
theorem audit_log_unknown_action_type_passthrough
    (p : JObj) (n : Int)
    (hact : jLookup p "action_type" = some (.num n))
    (hn : n ∉ knownAuditLogEventTypes)
    (hopt : (getOpt p "options").isNull = false) :
    (∀ e, deserializeAuditLogEntry p = .ok e →
      e.actionType = .num n ∧ e.options = some (.unrecognised (getOpt p "options")))
    ∧ ∀ lp log, jLookup lp "audit_log_entries" = some (.arr [.obj p]) →
        deserializeAuditLog lp = .ok log →
        ∀ k e, (k, e) ∈ log.entries →
          e.actionType = .num n ∧ e.options = some (.unrecognised (getOpt p "options")) := by
  have hfc : findEventConverter (.num n) = none := auditLogEventConverter_none n hn
  have hde : deriveEntryOptions p (.num n) =
      .ok (some (.unrecognised (getOpt p "options"))) := by
    unfold deriveEntryOptions
    rw [if_neg (by simp [hopt]), hfc]
    rfl
  have hPart1 : ∀ e, deserializeAuditLogEntry p = .ok e →
      e.actionType = .num n ∧ e.options = some (.unrecognised (getOpt p "options")) := by
    intro e hok
    simp only [deserializeAuditLogEntry, except_bind_ok, except_pure_eq_ok,
      Except.ok.injEq] at hok
    obtain ⟨idj, hidj, id, hid, tid, htid, chs, hchs, uid, huid, at1, hat1, opts,
      hopts, he⟩ := hok
    rw [req_eq_ok_iff, hact] at hat1
    injection hat1 with hat1e
    subst hat1e
    rw [hde] at hopts
    injection hopts with hoptse
    subst hoptse
    subst he
    exact ⟨rfl, rfl⟩
  refine ⟨hPart1, ?_⟩
  intro lp log hents hlog k e hmem
  simp only [deserializeAuditLog, except_bind_ok, except_pure_eq_ok,
    Except.ok.injEq] at hlog
  obtain ⟨ej, hej, earr, hearr, ents, hentsF, ij, hij, iarr, hiarr, ints, hints,
    uj, huj, uarr, huarr, us, hus, wj, hwj, warr, hwarr, ws, hws, hlogeq⟩ := hlog
  rw [req_eq_ok_iff, hents] at hej
  injection hej with heje
  subst heje
  injection hearr with hearre
  subst hearre
  simp only [auditEntriesFold, except_bind_ok, Except.ok.injEq] at hentsF
  obtain ⟨o, ho, e1, he1, hrest⟩ := hentsF
  injection ho with hoe
  subst hoe
  subst hrest
  subst hlogeq
  have he2 : e = e1 := by
    simp only [dictSet, List.mem_singleton, Prod.mk.injEq] at hmem
    exact hmem.2
  subst he2
  exact hPart1 e he1

/-- An entry payload whose action type 2000 is outside the known event-type
codes, with a present, non-null options object. -/
def auditUnknownEntryPayload : JObj :=
  [("id", .str "123456"), ("target_id", .null), ("user_id", .str "42"),
   ("action_type", .num 2000),
   ("options", .obj [("delete_member_days", .str "7")]),
   ("reason", .str "testing")]

/-- The entry decoded from `auditUnknownEntryPayload`. -/
def auditUnknownEntry : AuditLogEntry :=
  ⟨⟨123456⟩, none, [], some ⟨42⟩, .num 2000,
   some (.unrecognised (.obj [("delete_member_days", .str "7")])), .str "testing"⟩

theorem audit_log_unknown_action_type_witness :
    deserializeAuditLogEntry auditUnknownEntryPayload = .ok auditUnknownEntry ∧
    auditUnknownEntry.actionType = .num 2000 ∧
    auditUnknownEntry.options =
      some (.unrecognised (.obj [("delete_member_days", .str "7")])) := by
  have h := (audit_log_unknown_action_type_passthrough auditUnknownEntryPayload 2000
    rfl (by decide) rfl).1 auditUnknownEntry rfl
  exact ⟨rfl, h.1, h.2⟩

/-- A full audit-log payload holding the unknown-action-type entry and empty
integration, user and webhook arrays. -/
def auditUnknownLogPayload : JObj :=
  [("audit_log_entries", .arr [.obj auditUnknownEntryPayload]),
   ("integrations", .arr []), ("users", .arr []), ("webhooks", .arr [])]

/-- Sanity: the full audit-log decoder on the concrete payload keeps the raw
action type 2000 and wraps the untouched options payload. -/
theorem audit_log_unrecognised_sanity :
    deserializeAuditLog auditUnknownLogPayload =
      .ok ⟨[(⟨123456⟩, auditUnknownEntry)], [], [], []⟩ := rfl
